import Mathlib

/-!
Verification of the model-switcher utility (`model_switcher.py`).

The development shallowly embeds the program's pure core:
JSON documents are an inductive type, Python dicts are association lists
in insertion order, Python strings are Lean `String` (a list of chars),
and the external world (files, the service manager, the network, the
wall clock) is passed in explicitly: the parsed registry document, the
parsed alias-override document, the per-iteration log/status
observations of the health-check loop, and the remote catalog response.
Python exceptions are modelled by `Option` (`none` = the operation
raises and the process dies before writing anything).
-/

set_option autoImplicit false

namespace ModelSwitcher

/-- A parsed JSON value, as produced by `json.loads`.  Numbers are
modelled as integers (no claim touches non-integral numbers); object
fields are kept in insertion order, as Python dicts do. -/
inductive Json where
  | null
  | bool (b : Bool)
  | num (n : Int)
  | str (s : String)
  | arr (elems : List Json)
  | obj (fields : List (String × Json))

/-- Python `d.get(k)` on a dict: the value at the first matching key. -/
def jget (fs : List (String × Json)) (k : String) : Option Json :=
  (fs.find? (fun p => p.1 = k)).map (·.2)

/-- Python `d.get(k, dflt)`. -/
def jgetD (fs : List (String × Json)) (k : String) (dflt : Json) : Json :=
  (jget fs k).getD dflt

/-- Python `d[k] = v` on a dict: replace the value at an existing key in
place, otherwise append the new key at the end (insertion order). -/
def jset : List (String × Json) → String → Json → List (String × Json)
  | [], k, v => [(k, v)]
  | (k', v') :: rest, k, v =>
    if k' = k then (k, v) :: rest else (k', v') :: jset rest k v

/-- The value of a Python dict expression used as a dict (`.setdefault`,
`[...] =`, `.get` on it); any non-dict value raises. -/
def asObj : Json → Option (List (String × Json))
  | .obj fs => some fs
  | _ => none

/-- Follow a path of keys through nested JSON objects. -/
def getPath (v : Json) : List String → Option Json
  | [] => some v
  | k :: ks =>
    match v with
    | .obj fs =>
      match jget fs k with
      | some w => getPath w ks
      | none => none
    | _ => none

/-! ### Python string primitives

Operations on `String.data` mirroring the `str` methods the program
uses.  `lower` is modelled with `Char.toLower` (ASCII, which covers all
identifiers the program handles), `strip` removes leading and trailing
whitespace characters. -/

/-- Python `s.lower()`. -/
def lowerStr (s : String) : String := ⟨s.data.map Char.toLower⟩

/-- Python `s.strip()` on a character list. -/
def stripList (l : List Char) : List Char :=
  ((l.dropWhile Char.isWhitespace).reverse.dropWhile Char.isWhitespace).reverse

/-- Python `s.strip()`. -/
def stripStr (s : String) : String := ⟨stripList s.data⟩

/-- Python `s.startswith(p)`. -/
def startsW (s p : String) : Bool := p.data.isPrefixOf s.data

/-- Python `sub in s` (substring containment). -/
def containsSub (hay pat : List Char) : Bool :=
  hay.tails.any (fun t => pat.isPrefixOf t)

/-- Python `s.replace(pat, sub)` on character lists: scan left to
right, replacing each leftmost non-overlapping occurrence of `pat` by
`sub`.  (The program only calls it with non-empty patterns.) -/
def replaceL (pat sub : List Char) (l : List Char) : List Char :=
  match l with
  | [] => []
  | c :: rest =>
    if hp : pat ≠ [] ∧ pat.isPrefixOf (c :: rest) then
      sub ++ replaceL pat sub ((c :: rest).drop pat.length)
    else
      c :: replaceL pat sub rest
termination_by l.length
decreasing_by
  · simp only [List.length_drop, List.length_cons]
    have hlen : 1 ≤ pat.length := by
      cases hpat : pat with
      | nil => exact absurd hpat hp.1
      | cons a t => simp
    omega
  · simp

/-- Python `s.replace(pat, sub)`. -/
def pyReplace (s pat sub : String) : String := ⟨replaceL pat.data sub.data s.data⟩

/-- The characters of a string before its first `/` (Python
`s.split("/")[0]`). -/
def firstComp (l : List Char) : List Char := l.takeWhile (· ≠ '/')

/-- The characters of a string after its last `/`, or the whole string
when it has none (Python `s.split("/")[-1]`). -/
def lastComp (s : String) : String := ⟨(s.data.reverse.takeWhile (· ≠ '/')).reverse⟩

/-! ### Model registry and alias index (`load_aliases`, `build_alias_index`) -/

/-- One entry of a provider's `models` array in `models.json`:
`{"id": ..., "aliases": [...]}`. -/
structure ModelEntry where
  id : String
  aliases : List String
deriving DecidableEq

/-- The parsed `models.json` registry: the `providers` object, in
insertion order, each provider with its `models` array (the `label`
field plays no role in any claim). -/
abbrev Registry := List (String × List ModelEntry)

/-- A Python `dict[str, str]` as an insertion-ordered association list. -/
abbrev SDict := List (String × String)

/-- Python `d.get(k)` on a string dict. -/
def dget (d : SDict) (k : String) : Option String :=
  (d.find? (fun p => p.1 = k)).map (·.2)

/-- Python `d[k] = v` on a string dict. -/
def dassign : SDict → String → String → SDict
  | [], k, v => [(k, v)]
  | (k', v') :: rest, k, v =>
    if k' = k then (k, v) :: rest else (k', v') :: dassign rest k v

/-- Python `d.setdefault(k, v)` (only its effect on the dict). -/
def dsetdefault (d : SDict) (k v : String) : SDict :=
  if (dget d k).isSome then d else d ++ [(k, v)]

/-- Python `d.update(o)`: assign every pair of `o` into `d`, in order. -/
def dupdate (d o : SDict) : SDict :=
  o.foldl (fun acc kv => dassign acc kv.1 kv.2) d

/-- `load_aliases`: normalize the parsed alias-override document
(`model_aliases.json`) into a dict from stripped-and-lowercased alias to
stripped canonical id.  `ov` is the parsed flat JSON object; a missing
or unparsable file corresponds to `ov = []`. -/
def load_aliases (ov : SDict) : SDict :=
  ov.foldl (fun acc kv => dassign acc (lowerStr (stripStr kv.1)) (stripStr kv.2)) []

/-- One step of the alias loop of `build_alias_index`: normalize the
alias token and, when non-empty, bind it to the entry's id. -/
def aliasStep (mid : String) (d : SDict) (a : String) : SDict :=
  if lowerStr (stripStr a) = "" then d else dassign d (lowerStr (stripStr a)) mid

/-- Process one `(provider, model entry)` pair of the registry inside
`build_alias_index`'s nested loop: bind the lowercased id to itself,
set the lowercased base name as a default, bind every non-empty alias,
and for the `anthropic` provider also bind the dotted and dashed
variants of the id. -/
def processEntry (d : SDict) (pe : String × ModelEntry) : SDict :=
  if stripStr pe.2.id = "" then d
  else
    let mid := stripStr pe.2.id
    let d := dassign d (lowerStr mid) mid
    let d := dsetdefault d (lowerStr (lastComp mid)) mid
    let d := pe.2.aliases.foldl (aliasStep mid) d
    if pe.1 = "anthropic" then
      dassign (dassign d (lowerStr (pyReplace mid "-4-6" "-4.6")) mid)
        (lowerStr (pyReplace mid "-4.6" "-4-6")) mid
    else d

/-- The registry's `(provider, entry)` pairs in iteration order. -/
def allEntries (reg : Registry) : List (String × ModelEntry) :=
  reg.flatMap (fun pe => pe.2.map (fun item => (pe.1, item)))

/-- `build_alias_index`: fold the registry entries into the index, then
overlay the external alias overrides (`aliases.update(load_aliases())`). -/
def build_alias_index (reg : Registry) (ov : SDict) : SDict :=
  dupdate ((allEntries reg).foldl processEntry []) (load_aliases ov)

/-- Every value of a dict is fixed by `strip` (true of the alias index:
all its values pass through `str.strip()` on the way in). -/
def StrippedVals (d : SDict) : Prop := ∀ p ∈ d, stripStr p.2 = p.2

/-- The index keys that processing one registry entry binds (by
assignment or `setdefault`): the lowercased id, its lowercased base
name, its non-empty normalized aliases, and — for the `anthropic`
provider — the lowercased dotted and dashed variants.  All of them are
bound to the entry's stripped id. -/
def entryKeys (pe : String × ModelEntry) : List String :=
  if stripStr pe.2.id = "" then []
  else
    [lowerStr (stripStr pe.2.id), lowerStr (lastComp (stripStr pe.2.id))]
      ++ (pe.2.aliases.map (fun a => lowerStr (stripStr a))).filter (fun x => ¬ x = "")
      ++ (if pe.1 = "anthropic" then
          [lowerStr (pyReplace (stripStr pe.2.id) "-4-6" "-4.6"),
            lowerStr (pyReplace (stripStr pe.2.id) "-4.6" "-4-6")]
        else [])

/-! ### Identifier normalizer (`normalize_model`) -/

/-- The fixed set of known provider prefixes checked (on the lowercased
id) before falling back to the `openrouter/` default. -/
def knownPfx (s : String) : Bool :=
  startsW s "anthropic/" || startsW s "openrouter/" || startsW s "openai/" ||
    startsW s "google/" || startsW s "xai/" || startsW s "deepseek/"

/-- The provider-prefix step of `normalize_model`: an id containing a
slash but lacking a known provider prefix is prefixed with
`openrouter/`. -/
def pfxFix (resolved : String) : String :=
  if resolved.data.contains '/' && !(knownPfx (lowerStr resolved)) then
    "openrouter/" ++ resolved
  else resolved

/-- The anthropic version-canonicalization step of `normalize_model`:
for an id starting (case-sensitively) with `anthropic/` whose name part
(`split("/", 1)[1]`, i.e. everything after the first 10 characters)
contains the dotted token `4.6`, rewrite it to the dashed `4-6`. -/
def anthFix (resolved : String) : String :=
  if startsW resolved "anthropic/" then
    if containsSub (resolved.data.drop 10) "4.6".data then
      "anthropic/" ++ (⟨replaceL "4.6".data "4-6".data (resolved.data.drop 10)⟩ : String)
    else resolved
  else resolved

/-- `normalize_model(raw, registry)`: strip the token (an empty token
is returned as-is), resolve it through the alias index (falling through
unchanged when absent), then apply the provider-prefix and anthropic
version fixes. -/
def normalize_model (raw : String) (reg : Registry) (ov : SDict) : String :=
  if stripStr raw = "" then stripStr raw
  else
    anthFix (pfxFix
      ((dget (build_alias_index reg ov) (lowerStr (stripStr raw))).getD (stripStr raw)))

/-! ### Catalog validator (`local_model_exists`, `openrouter_has_model`,
`remote_validate`, `validate_model`) -/

/-- `local_model_exists`: the lowercased id is a key of the alias
index. -/
def local_model_exists (model_id : String) (reg : Registry) (ov : SDict) : Bool :=
  (dget (build_alias_index reg ov) (lowerStr model_id)).isSome

/-- `provider_from_model`: the lowercased part before the first slash.
(`str.split` never returns an empty list, so the Python `None` branch is
unreachable.) -/
def provider_from_model (model_id : String) : String :=
  lowerStr ⟨firstComp model_id.data⟩

/-- `openrouter_has_model`, with the outcome of the outbound catalog
query passed in: `none` models any failure of the `try` block (network
error, non-zero curl exit, timeout, JSON parse error) and yields
`False`; `some ids` is the list of ids of a successful, parsed
response. -/
def openrouter_has_model (model_id : String) (resp : Option (List String)) : Bool :=
  let target :=
    if startsW model_id "openrouter/" then (⟨model_id.data.drop 11⟩ : String)
    else model_id
  match resp with
  | none => false
  | some ids => ids.contains target

/-- `remote_validate`: only the `openrouter` provider has an
implemented remote check; `anthropic` and all other providers are
treated as valid. -/
def remote_validate (model_id : String) (resp : Option (List String)) : Bool :=
  let provider := provider_from_model model_id
  if provider = "openrouter" then openrouter_has_model model_id resp
  else if provider = "anthropic" then true
  else true

/-- `validate_model(model_id, registry, mode) -> (ok, reason)`. -/
def validate_model (model_id : String) (reg : Registry) (ov : SDict)
    (mode : String) (resp : Option (List String)) : Bool × String :=
  if mode = "none" then (true, "Validation skipped (mode=none).")
  else if (mode = "local" || mode = "remote") && !local_model_exists model_id reg ov then
    (false, "Model not found in local registry: " ++ model_id)
  else if mode = "local" then (true, "Local registry validation passed: " ++ model_id)
  else if remote_validate model_id resp then (true, "Remote validation passed: " ++ model_id)
  else (false, "Remote validation failed: " ++ model_id)

/-! ### Config store (`current_model`, `patch_config`) -/

/-- Python truthiness (`if m:`) of a parsed JSON value. -/
def truthy : Json → Bool
  | .null => false
  | .bool b => b
  | .num n => n ≠ 0
  | .str s => s ≠ ""
  | .arr xs => !xs.isEmpty
  | .obj fs => !fs.isEmpty

/-- The loop of `current_model` over `agents.list`: the first agent
whose `id` is `"main"` and whose `model.primary` is truthy produces an
early return (`some (some v)`); `some none` means the loop fell
through; `none` means an iteration raised (non-dict agent, or a `main`
agent whose `model` is not a dict). -/
def currentModelLoop : List Json → Option (Option Json)
  | [] => some none
  | a :: rest =>
    match a with
    | .obj fs =>
      match jget fs "id" with
      | some (.str s) =>
        if s = "main" then
          match asObj (jgetD fs "model" (.obj [])) with
          | some m =>
            let pv := (jget m "primary").getD .null
            if truthy pv then some (some pv) else currentModelLoop rest
          | none => none
        else currentModelLoop rest
      | _ => currentModelLoop rest
    | _ => none

/-- The sequence iterated by `for agent in cfg.get("agents", {}).get("list", [])`
(an absent `list` key iterates the `[]` default; a non-list raises as
soon as an element method is called, which the loops below always do on
a non-empty sequence). -/
def agentsListElems (agents : List (String × Json)) : Option (List Json) :=
  match jget agents "list" with
  | none => some []
  | some (.arr xs) => some xs
  | some _ => none

/-- `current_model(cfg)`: prefer the `main` agent's truthy
`model.primary`, else fall back to `agents.defaults.model.primary`,
else the `"(unknown)"` sentinel. -/
def current_model (cfg : List (String × Json)) : Option Json :=
  match asObj (jgetD cfg "agents" (.obj [])) with
  | none => none
  | some agents =>
    match agentsListElems agents with
    | none => none
    | some lst =>
      match currentModelLoop lst with
      | none => none
      | some (some v) => some v
      | some none =>
        match asObj (jgetD agents "defaults" (.obj [])) with
        | none => none
        | some defaults =>
          match asObj (jgetD defaults "model" (.obj [])) with
          | none => none
          | some mdl => some (jgetD mdl "primary" (.str "(unknown)"))

/-- The body of `patch_config`'s loop over `agents.list`: an agent
whose `id` is `"main"` gets `model.primary` set (the `model` object is
created if absent, and raises if present but not a dict); other agents
are untouched; a non-dict agent raises. -/
def patch_agent (model_id : String) : Json → Option Json
  | .obj fs =>
    match jget fs "id" with
    | some (.str s) =>
      if s = "main" then
        match asObj (jgetD fs "model" (.obj [])) with
        | some m =>
          some (.obj (jset fs "model" (.obj (jset m "primary" (.str model_id)))))
        | none => none
      else some (.obj fs)
    | _ => some (.obj fs)
  | _ => none

/-- `patch_config`'s loop over the agents of `agents.list`, agent by
agent (a raised iteration aborts the whole command before the document
is written, hence `none`). -/
def patchAgents (model_id : String) : List Json → Option (List Json)
  | [] => some []
  | a :: rest =>
    match patch_agent model_id a with
    | none => none
    | some a' =>
      match patchAgents model_id rest with
      | none => none
      | some rest' => some (a' :: rest')

/-- The test `agent.get("id") == "main"` of the source's loops: a dict
whose `id` key holds the string `"main"`. -/
def isMainAgent : Json → Bool
  | .obj fs =>
    match jget fs "id" with
    | some (.str s) => s = "main"
    | _ => false
  | _ => false

/-- How `patch_config` may change one agent of `agents.list`: a
non-`main` agent is returned verbatim; a `main` agent keeps every field
except `model` and keeps every field of `model` except `primary`. -/
def agentFrame (a a' : Json) : Prop :=
  if isMainAgent a then
    (∀ k, k ≠ "model" → getPath a' [k] = getPath a [k]) ∧
    (∀ k, k ≠ "primary" → getPath a' ["model", k] = getPath a ["model", k])
  else a' = a

/-- The patched `agents` object as mutated in place by the
`setdefault`/assignment chain of `patch_config`, before its list loop:
`defaults.model` created where absent and `primary` set. -/
def patchCore (model_id : String) (agents0 defaults0 model0 : List (String × Json)) :
    List (String × Json) :=
  jset agents0 "defaults"
    (.obj (jset defaults0 "model" (.obj (jset model0 "primary" (.str model_id)))))

/-- `patch_config(model_id)`: create the `agents.defaults.model` chain
where absent (each existing link must be a dict), set
`agents.defaults.model.primary`, patch every `main` agent in
`agents.list`, and write the document back.  `none` models a raised
exception (the document is then never written).  The `imageModel` block
of the source (lines 186-188) calls `setdefault` on a key it just
observed to be present and non-null, so it never changes the document
and is omitted as a no-op. -/
def patch_config (model_id : String) (cfg : List (String × Json)) :
    Option (List (String × Json)) :=
  match asObj (jgetD cfg "agents" (.obj [])) with
  | none => none
  | some agents0 =>
    match asObj (jgetD agents0 "defaults" (.obj [])) with
    | none => none
    | some defaults0 =>
      match asObj (jgetD defaults0 "model" (.obj [])) with
      | none => none
      | some model0 =>
        match jget (patchCore model_id agents0 defaults0 model0) "list" with
        | none => some (jset cfg "agents" (.obj (patchCore model_id agents0 defaults0 model0)))
        | some (.arr xs) =>
          match patchAgents model_id xs with
          | none => none
          | some xs' =>
            some (jset cfg "agents"
              (.obj (jset (patchCore model_id agents0 defaults0 model0) "list" (.arr xs'))))
        | some _ => none

/-! ### Health observer (`restart_and_check`)

The environment of one poll iteration — the log bytes appended since
the recorded offset, the journal window, and the (stripped) output of
`systemctl is-active` — is an observation; the list of observations is
what the 25-second deadline allows the loop to see (one entry per
iteration; the loop always runs at least one).  Exhausting the list is
reaching the deadline. -/

/-- One poll iteration's environment. -/
structure RacObs where
  newText : String
  jctl : String
  status : String

/-- The outcome of `restart_and_check`, together with effect counters:
how many `is-active` status queries were issued and how many `restart`
commands (always the single initial one). -/
structure RacResult where
  ok : Bool
  reason : String
  statusChecks : Nat
  restarts : Nat
deriving DecidableEq

/-- A single-quote character, for building reason strings. -/
def sq : String := String.singleton (Char.ofNat 39)

/-- The failure-pattern scan
`re.search(r"Unknown model:|model not found|404.*model", combined, re.IGNORECASE)`:
a case-insensitive occurrence of one of the two phrases, or `404`
followed by `model` later on the same line (`.` does not cross
newlines). -/
def failPat (combined : String) : Bool :=
  let t := (lowerStr combined).data
  containsSub t "unknown model:".data || containsSub t "model not found".data ||
    t.tails.any (fun suf =>
      "404".data.isPrefixOf suf &&
        containsSub ((suf.drop 3).takeWhile (fun c => c ≠ '\n')) "model".data)

/-- The reason returned when the deadline passes without success or an
early failure. -/
def deadlineReason (model_id : String) : String :=
  "Gateway active but " ++ sq ++ "agent model: " ++ model_id ++ sq ++
    " not seen within 25s."

/-- The poll loop of `restart_and_check`.  Each iteration reads the two
text sources and queries the status (one status check), then tests the
failure patterns, the confirmation marker, and liveness, in that
order. -/
def racGo (model_id : String) : List RacObs → Nat → RacResult
  | [], checks => ⟨false, deadlineReason model_id, checks, 1⟩
  | o :: rest, checks =>
    if failPat (o.newText ++ "\n" ++ o.jctl) then
      ⟨false, "Unknown/invalid model detected in logs after restart.", checks + 1, 1⟩
    else if containsSub (o.newText ++ "\n" ++ o.jctl).data ("agent model: " ++ model_id).data then
      ⟨true, "Confirmed: agent model: " ++ model_id, checks + 1, 1⟩
    else if o.status ≠ "active" then
      ⟨false, "Gateway failed to stay active (status: " ++ o.status ++ ").", checks + 1, 1⟩
    else racGo model_id rest (checks + 1)

/-- `restart_and_check(model_id)`: restart (the one restart command),
then poll until an outcome or the deadline. -/
def restart_and_check (model_id : String) (obs : List RacObs) : RacResult :=
  racGo model_id obs 0

/-- The first `n` observations of an unbounded environment: what the
loop consumes when the deadline allows exactly `n` iterations.  The
environment at index `n` is what a status check issued after the
deadline would see. -/
def obsWindow (obs : Nat → RacObs) (n : Nat) : List RacObs :=
  (List.range n).map obs

/-! ### Switch orchestrator (`cmd_model_set`) and authorization gate -/

/-- The outcome of one `cmd_model_set` invocation: the exit code
(`none` = normal return), the resulting configuration document, the
backup artifacts created (path and verbatim content), how many times
the service was restarted, and the status lines printed. -/
structure SwitchResult where
  exit : Option Nat
  config : List (String × Json)
  backups : List (String × List (String × Json))
  restarts : Nat
  prints : List String

/-- The backup path `BACKUP_DIR / f"openclaw.json.{ts}.bak"` for the
invocation's timestamp `ts`. -/
def backupPath (ts : String) : String :=
  "/root/.openclaw/backups/openclaw.json." ++ ts ++ ".bak"

/-- `cmd_model_set(model_raw, dry_run, validate_mode)`.  Inputs: the
parsed registry and alias-override documents, the current configuration
document, the health-check environment, the remote catalog response,
and the backup timestamp.  `none` models an uncaught exception (from
`patch_config`); on the rollback path the document is restored to the
backup's verbatim content and a second restart is issued. -/
def cmd_model_set (raw : String) (dry : Bool) (mode : String)
    (reg : Registry) (ov : SDict) (cfg : List (String × Json))
    (obs : List RacObs) (resp : Option (List String)) (ts : String) :
    Option SwitchResult :=
  let model_id := normalize_model raw reg ov
  let p0 := "Resolved model: " ++ model_id
  let v := validate_model model_id reg ov mode resp
  if !v.1 then some ⟨some 2, cfg, [], 0, [p0, "❌ " ++ v.2]⟩
  else
    let p1 := "✅ " ++ v.2
    if dry then
      some ⟨none, cfg, [], 0, [p0, p1, "🔍 DRY RUN — would switch to: " ++ model_id]⟩
    else
      let bp := backupPath ts
      let p2 := "💾 Config backed up to: " ++ bp
      let p3 := "📝 Config updated with model: " ++ model_id
      let p4 := "🔄 Restarting openclaw-gateway…"
      match patch_config model_id cfg with
      | none => none
      | some cfg1 =>
        let r := restart_and_check model_id obs
        if r.ok then
          some ⟨none, cfg1, [(bp, cfg)], r.restarts,
            [p0, p1, p2, p3, p4, "✅ " ++ r.reason,
             "🎉 Successfully switched to: " ++ model_id]⟩
        else
          some ⟨some 3, cfg, [(bp, cfg)], r.restarts + 1,
            [p0, p1, p2, p3, p4, "❌ Healthcheck failed: " ++ r.reason,
             "⏪ Rolling back to: " ++ bp,
             "🔄 Gateway restarted with previous config.",
             "❌ Set failed — rolled back to backup: " ++ bp]⟩

/-- `DEFAULT_MODEL`. -/
def DEFAULT_MODEL : String := "anthropic/claude-sonnet-4-6"

/-- The element sequence of a Python `for x in v` over a parsed JSON
value: lists yield elements, strings yield one-character strings,
dicts yield their keys; other values raise. -/
def pyIter : Json → Option (List Json)
  | .arr xs => some xs
  | .str s => some (s.data.map (fun c => .str (String.singleton c)))
  | .obj fs => some (fs.map (fun p => Json.str p.1))
  | _ => none

/-- Python `repr(x)` of a parsed JSON value (strings quoted; escape
sequences inside strings are not modelled). -/
def pyRpr : Json → String
  | .null => "None"
  | .bool true => "True"
  | .bool false => "False"
  | .num n => toString n
  | .str s => sq ++ s ++ sq
  | .arr xs => "[" ++ String.intercalate ", " (xs.attach.map (fun x => pyRpr x.1)) ++ "]"
  | .obj fs =>
    "\x7b" ++
      String.intercalate ", "
        (fs.attach.map (fun p => sq ++ p.1.1 ++ sq ++ ": " ++ pyRpr p.1.2)) ++
      "\x7d"
decreasing_by
  · have hx := List.sizeOf_lt_of_mem x.2
    simp only [Json.arr.sizeOf_spec]
    omega
  · have hp := List.sizeOf_lt_of_mem p.2
    obtain ⟨⟨a, b⟩, hmem⟩ := p
    simp only [Prod.mk.sizeOf_spec] at hp
    simp only [Json.obj.sizeOf_spec]
    omega

/-- Python `str(x)` of a parsed JSON value, as used on the entries of
`channels.discord.allowFrom`: strings pass through unquoted, every
other value prints as its repr. -/
def pyStr : Json → String
  | .str s => s
  | v => pyRpr v

/-- The element sequence of
`load_config().get("channels", {}).get("discord", {}).get("allowFrom", [])`
as iterated by the set comprehension (`none` = reading it raised). -/
def allowlist (cfg : List (String × Json)) : Option (List Json) := do
  let channels ← asObj (jgetD cfg "channels" (.obj []))
  let discord ← asObj (jgetD channels "discord" (.obj []))
  pyIter (jgetD discord "allowFrom" (.arr []))

/-- `require_allowlisted(user_id)`: `some (some 4)` = abort with exit
code 4, `some none` = pass, `none` = raised while reading the
configuration.  A missing `--user-id` and an empty one are both falsy
and abort before the configuration is even read; a non-member aborts
after reading `channels.discord.allowFrom`. -/
def require_allowlisted (user_id : Option String) (cfg : List (String × Json)) :
    Option (Option Nat) :=
  match user_id with
  | none => some (some 4)
  | some u =>
    if u = "" then some (some 4)
    else
      match allowlist cfg with
      | none => none
      | some elems =>
        if (elems.map pyStr).contains u then some none else some (some 4)

/-- `cmd_model_add`: create the provider if absent, then either extend
an existing entry's aliases (sorted union) or append a new entry.  The
updated registry is persisted; the command itself never aborts. -/
def cmd_model_add (provider mid : String) (als : List String) (reg : Registry) :
    Registry × Option Nat :=
  let reg := if (reg.find? (fun p => p.1 = provider)).isSome then reg else reg ++ [(provider, [])]
  let models := ((reg.find? (fun p => p.1 = provider)).map (·.2)).getD []
  if models.any (fun item => item.id = mid) then
    let models' := models.map (fun item =>
      if item.id = mid then
        ⟨item.id, ((item.aliases ++ als).dedup).mergeSort (fun a b => a ≤ b)⟩
      else item)
    (reg.map (fun p => if p.1 = provider then (p.1, models') else p), none)
  else
    (reg.map (fun p => if p.1 = provider then (p.1, models ++ [⟨mid, als⟩]) else p), none)

/-- `cmd_model_remove`: exit 2 on an unknown provider or an id absent
from it, else persist the registry without that entry. -/
def cmd_model_remove (provider mid : String) (reg : Registry) : Registry × Option Nat :=
  match reg.find? (fun p => p.1 = provider) with
  | none => (reg, some 2)
  | some pdata =>
    let newModels := pdata.2.filter (fun m => ¬(m.id = mid))
    if newModels.length = pdata.2.length then (reg, some 2)
    else (reg.map (fun p => if p.1 = provider then (p.1, newModels) else p), none)

/-- The mutating subcommands of `main` that are guarded by
`require_allowlisted` (`model set/reset/add/remove/export/reload` and
the compatibility `set` and `rollback`), already parsed — the spec
treats argument parsing as an external collaborator.  For `rollback`,
whether the named backup file exists and its parsed content are
inputs. -/
inductive Subcmd where
  | mset (raw : String) (dry : Bool)
  | mreset (dry : Bool)
  | madd (provider mid : String) (als : List String)
  | mremove (provider mid : String)
  | mexport
  | mreload
  | mrollback (present : Bool) (content : List (String × Json))

/-- The observable state a mutating subcommand can touch: the
configuration document, the model registry, the backup artifacts, and
the number of service restarts issued. -/
structure World where
  config : List (String × Json)
  registry : Registry
  backups : List (String × List (String × Json))
  restarts : Nat

/-- The dispatch of `main` for the guarded subcommands:
`require_allowlisted` runs first, and only when it passes does the
command body run.  Result: `none` = uncaught exception, otherwise the
exit code (`none` = exit 0) and the final world. -/
def main_dispatch (c : Subcmd) (user_id : Option String) (mode : String)
    (ov : SDict) (w : World) (obs : List RacObs) (resp : Option (List String))
    (ts : String) : Option (Option Nat × World) :=
  match require_allowlisted user_id w.config with
  | none => none
  | some (some code) => some (some code, w)
  | some none =>
    match c with
    | .mset raw dry =>
      (cmd_model_set raw dry mode w.registry ov w.config obs resp ts).map
        (fun r => (r.exit, ⟨r.config, w.registry, w.backups ++ r.backups,
          w.restarts + r.restarts⟩))
    | .mreset dry =>
      (cmd_model_set DEFAULT_MODEL dry mode w.registry ov w.config obs resp ts).map
        (fun r => (r.exit, ⟨r.config, w.registry, w.backups ++ r.backups,
          w.restarts + r.restarts⟩))
    | .madd provider mid als =>
      let r := cmd_model_add provider mid als w.registry
      some (r.2, ⟨w.config, r.1, w.backups, w.restarts⟩)
    | .mremove provider mid =>
      let r := cmd_model_remove provider mid w.registry
      some (r.2, ⟨w.config, r.1, w.backups, w.restarts⟩)
    | .mexport => some (none, w)
    | .mreload => some (none, w)
    | .mrollback present content =>
      if present then some (none, ⟨content, w.registry, w.backups, w.restarts + 1⟩)
      else some (some 2, w)

/-! ## Basic dictionary lemmas -/

theorem jget_nil (k : String) : jget [] k = none := rfl

theorem jget_cons (k' : String) (v' : Json) (fs : List (String × Json)) (k : String) :
    jget ((k', v') :: fs) k = if k' = k then some v' else jget fs k := by
  by_cases h : k' = k <;> simp [jget, List.find?_cons, h]

theorem jget_jset (fs : List (String × Json)) (k k' : String) (v : Json) :
    jget (jset fs k v) k' = if k' = k then some v else jget fs k' := by
  induction fs with
  | nil =>
    by_cases h : k' = k
    · subst h
      simp [jset, jget_cons, jget_nil]
    · simp [jset, jget_cons, jget_nil, h, Ne.symm h]
  | cons p rest ih =>
    obtain ⟨pk, pv⟩ := p
    by_cases hp : pk = k
    · subst hp
      simp only [jset, if_pos rfl, jget_cons]
      by_cases h : k' = pk
      · subst h
        simp [jget_cons]
      · simp [jget_cons, h, Ne.symm h]
    · simp only [jset, if_neg hp, jget_cons, ih]
      by_cases hpk : pk = k'
      · subst hpk
        simp [hp]
      · simp [hpk]

theorem dget_nil (k : String) : dget [] k = none := rfl

theorem dget_cons (k' v' : String) (d : SDict) (k : String) :
    dget ((k', v') :: d) k = if k' = k then some v' else dget d k := by
  by_cases h : k' = k <;> simp [dget, List.find?_cons, h]

theorem dget_dassign (d : SDict) (k k' v : String) :
    dget (dassign d k v) k' = if k' = k then some v else dget d k' := by
  induction d with
  | nil =>
    by_cases h : k' = k
    · subst h
      simp [dassign, dget_cons, dget_nil]
    · simp [dassign, dget_cons, dget_nil, h, Ne.symm h]
  | cons p rest ih =>
    obtain ⟨pk, pv⟩ := p
    by_cases hp : pk = k
    · subst hp
      simp only [dassign, if_pos rfl, dget_cons]
      by_cases h : k' = pk
      · subst h
        simp [dget_cons]
      · simp [dget_cons, h, Ne.symm h]
    · simp only [dassign, if_neg hp, dget_cons, ih]
      by_cases hpk : pk = k'
      · subst hpk
        simp [hp]
      · simp [hpk]

theorem dget_append (d e : SDict) (k : String) :
    dget (d ++ e) k = (dget d k).orElse (fun _ => dget e k) := by
  induction d with
  | nil => simp [dget_nil, Option.orElse]
  | cons p rest ih =>
    obtain ⟨pk, pv⟩ := p
    by_cases hp : pk = k <;> simp [dget_cons, hp, ih, Option.orElse]

theorem dget_dsetdefault (d : SDict) (k v k' : String) :
    dget (dsetdefault d k v) k' =
      if (dget d k).isSome then dget d k'
      else (dget d k').orElse (fun _ => if k = k' then some v else none) := by
  unfold dsetdefault
  by_cases hk : (dget d k).isSome
  · simp [hk]
  · simp [hk, dget_append, dget_cons, dget_nil]

/-! ## Whitespace stripping -/

theorem dropWhile_head_not (p : Char → Bool) :
    ∀ (l : List Char) (c : Char), (l.dropWhile p).head? = some c → p c = false := by
  intro l
  induction l with
  | nil =>
    intro c h
    simp at h
  | cons a t ih =>
    intro c h
    by_cases hpa : p a = true
    · rw [List.dropWhile_cons, if_pos hpa] at h
      exact ih c h
    · rw [List.dropWhile_cons, if_neg hpa] at h
      cases h
      exact Bool.not_eq_true _ ▸ hpa

theorem dropWhile_eq_self_of_head (p : Char → Bool) (l : List Char)
    (h : ∀ c, l.head? = some c → p c = false) : l.dropWhile p = l := by
  cases l with
  | nil => rfl
  | cons a t =>
    rw [List.dropWhile_cons, if_neg (by rw [h a rfl]; exact Bool.false_ne_true)]

theorem getLast?_dropWhile (p : Char → Bool) :
    ∀ (l : List Char), l.dropWhile p ≠ [] →
      (l.dropWhile p).getLast? = l.getLast? := by
  intro l
  induction l with
  | nil =>
    intro h
    exact absurd rfl h
  | cons a t ih =>
    intro h
    by_cases hpa : p a = true
    · rw [List.dropWhile_cons, if_pos hpa] at h ⊢
      rw [ih h]
      cases t with
      | nil => exact absurd rfl h
      | cons b t' => rfl
    · rw [List.dropWhile_cons, if_neg hpa]

theorem stripList_getLast_not (l : List Char) (c : Char)
    (h : (stripList l).getLast? = some c) : Char.isWhitespace c = false := by
  rw [stripList, List.getLast?_reverse] at h
  exact dropWhile_head_not _ _ _ h

theorem stripList_head_not (l : List Char) (c : Char)
    (h : (stripList l).head? = some c) : Char.isWhitespace c = false := by
  rw [stripList, List.head?_reverse] at h
  have hne : (l.dropWhile Char.isWhitespace).reverse.dropWhile Char.isWhitespace ≠ [] := by
    intro habs
    rw [habs] at h
    exact Option.noConfusion h
  rw [getLast?_dropWhile _ _ hne, List.getLast?_reverse] at h
  exact dropWhile_head_not _ _ _ h

theorem stripList_eq_self (l : List Char)
    (hh : ∀ c, l.head? = some c → Char.isWhitespace c = false)
    (hl : ∀ c, l.getLast? = some c → Char.isWhitespace c = false) :
    stripList l = l := by
  rw [stripList, dropWhile_eq_self_of_head _ _ hh,
    dropWhile_eq_self_of_head _ _ (by
      intro c h
      rw [List.head?_reverse] at h
      exact hl c h), List.reverse_reverse]

theorem stripList_idem (l : List Char) : stripList (stripList l) = stripList l :=
  stripList_eq_self _ (stripList_head_not l) (stripList_getLast_not l)

theorem stripStr_idem (s : String) : stripStr (stripStr s) = stripStr s := by
  rw [stripStr, stripStr]
  exact congrArg String.mk (stripList_idem s.data)

/-- A string whose character list has non-whitespace ends (or is empty)
is fixed by `strip`. -/
theorem stripStr_eq_self (s : String)
    (hh : ∀ c, s.data.head? = some c → Char.isWhitespace c = false)
    (hl : ∀ c, s.data.getLast? = some c → Char.isWhitespace c = false) :
    stripStr s = s := by
  rw [stripStr, stripList_eq_self s.data hh hl]

theorem stripped_head (s : String) (hs : stripStr s = s) :
    ∀ c, s.data.head? = some c → Char.isWhitespace c = false := by
  intro c h
  have : stripList s.data = s.data := congrArg String.data hs
  rw [← this] at h
  exact stripList_head_not _ _ h

theorem stripped_getLast (s : String) (hs : stripStr s = s) :
    ∀ c, s.data.getLast? = some c → Char.isWhitespace c = false := by
  intro c h
  have : stripList s.data = s.data := congrArg String.data hs
  rw [← this] at h
  exact stripList_getLast_not _ _ h

/-! ## `replace` -/

theorem replaceL_nil (pat sub : List Char) : replaceL pat sub [] = [] := by
  rw [replaceL]

theorem replaceL_cons_pos (pat sub : List Char) (c : Char) (rest : List Char)
    (h : pat ≠ [] ∧ pat.isPrefixOf (c :: rest) = true) :
    replaceL pat sub (c :: rest) =
      sub ++ replaceL pat sub ((c :: rest).drop pat.length) := by
  rw [replaceL, dif_pos h]

theorem replaceL_cons_neg (pat sub : List Char) (c : Char) (rest : List Char)
    (h : ¬(pat ≠ [] ∧ pat.isPrefixOf (c :: rest) = true)) :
    replaceL pat sub (c :: rest) = c :: replaceL pat sub rest := by
  rw [replaceL, dif_neg h]

theorem replaceL_ne_nil (pat sub : List Char) (hsub : sub ≠ []) (l : List Char)
    (hl : l ≠ []) : replaceL pat sub l ≠ [] := by
  cases l with
  | nil => exact absurd rfl hl
  | cons c rest =>
    by_cases hp : (pat ≠ [] ∧ pat.isPrefixOf (c :: rest) = true)
    · rw [replaceL_cons_pos _ _ _ _ hp]
      intro habs
      exact hsub (List.append_eq_nil.mp habs).1
    · rw [replaceL_cons_neg _ _ _ _ hp]
      exact List.cons_ne_nil _ _

theorem replaceL_head? (pat sub : List Char) (hsub : sub ≠ [])
    (hh : pat.head? = sub.head?) (l : List Char) :
    (replaceL pat sub l).head? = l.head? := by
  cases l with
  | nil => rw [replaceL_nil]
  | cons c rest =>
    by_cases hp : (pat ≠ [] ∧ pat.isPrefixOf (c :: rest) = true)
    · rw [replaceL_cons_pos _ _ _ _ hp]
      cases hpat : pat with
      | nil => exact absurd hpat hp.1
      | cons p0 pt =>
        have hc : p0 = c := by
          have h2 := hp.2
          rw [hpat] at h2
          simp only [List.isPrefixOf, Bool.and_eq_true, beq_iff_eq] at h2
          exact h2.1
        cases hsubc : sub with
        | nil => exact absurd hsubc hsub
        | cons s0 st =>
          have hs : p0 = s0 := by
            rw [hpat, hsubc] at hh
            exact Option.some.inj hh
          have hsc : s0 = c := by
            rw [← hs]
            exact hc
          rw [List.cons_append]
          simp only [List.head?_cons, hsc]
    · rw [replaceL_cons_neg _ _ _ _ hp]
      rfl

theorem getLast?_cons_ne_nil (c : Char) (t : List Char) (h : t ≠ []) :
    (c :: t).getLast? = t.getLast? := by
  cases t with
  | nil => exact absurd rfl h
  | cons b t' => exact List.getLast?_cons_cons

theorem getLast?_append_ne_nil (l₁ l₂ : List Char) (h : l₂ ≠ []) :
    (l₁ ++ l₂).getLast? = l₂.getLast? := by
  rw [List.getLast?_append]
  cases hx : l₂.getLast? with
  | none => exact absurd (List.getLast?_eq_none.mp hx) h
  | some x => rfl

theorem replaceL_getLast?_aux (pat sub : List Char) (hpat : pat ≠ []) (hsub : sub ≠ [])
    (hl : pat.getLast? = sub.getLast?) :
    ∀ (n : Nat) (l : List Char), l.length ≤ n →
      (replaceL pat sub l).getLast? = l.getLast? := by
  intro n
  induction n with
  | zero =>
    intro l hlen
    have : l = [] := List.length_eq_zero.mp (Nat.le_zero.mp hlen)
    subst this
    rw [replaceL_nil]
  | succ n ih =>
    intro l hlen
    cases l with
    | nil => rw [replaceL_nil]
    | cons c rest =>
      by_cases hp : (pat ≠ [] ∧ pat.isPrefixOf (c :: rest) = true)
      · rw [replaceL_cons_pos _ _ _ _ hp]
        have hpre : pat <+: (c :: rest) := List.isPrefixOf_iff_prefix.mp hp.2
        have heq : pat ++ (c :: rest).drop pat.length = c :: rest :=
          List.prefix_iff_eq_append.mp hpre
        have hplen : 1 ≤ pat.length := by
          cases hx : pat with
          | nil => exact absurd hx hpat
          | cons a t => simp
        cases hd : (c :: rest).drop pat.length with
        | nil =>
          rw [replaceL_nil, List.append_nil]
          rw [hd, List.append_nil] at heq
          rw [heq] at hl
          exact hl.symm
        | cons d0 dt =>
          have hdne2 : d0 :: dt ≠ [] := List.cons_ne_nil _ _
          have hrne : replaceL pat sub (d0 :: dt) ≠ [] :=
            replaceL_ne_nil pat sub hsub _ hdne2
          rw [getLast?_append_ne_nil _ _ hrne]
          have hlen2 := congrArg List.length hd
          rw [List.length_drop, List.length_cons] at hlen2
          rw [List.length_cons] at hlen
          have hdlen : (d0 :: dt).length ≤ n := by omega
          rw [ih _ hdlen]
          conv_rhs => rw [← heq, hd]
          rw [getLast?_append_ne_nil _ _ hdne2]
      · rw [replaceL_cons_neg _ _ _ _ hp]
        by_cases hrnil : rest = []
        · subst hrnil
          rw [replaceL_nil]
        · have hRne : replaceL pat sub rest ≠ [] := replaceL_ne_nil pat sub hsub _ hrnil
          rw [getLast?_cons_ne_nil _ _ hRne, getLast?_cons_ne_nil _ _ hrnil]
          apply ih
          rw [List.length_cons] at hlen
          omega

theorem replaceL_getLast? (pat sub : List Char) (hpat : pat ≠ []) (hsub : sub ≠ [])
    (hl : pat.getLast? = sub.getLast?) (l : List Char) :
    (replaceL pat sub l).getLast? = l.getLast? :=
  replaceL_getLast?_aux pat sub hpat hsub hl l.length l (Nat.le_refl _)

theorem containsSub_nil (pat : List Char) : containsSub [] pat = pat.isPrefixOf [] := by
  simp [containsSub]

theorem containsSub_cons (c : Char) (t pat : List Char) :
    containsSub (c :: t) pat = (pat.isPrefixOf (c :: t) || containsSub t pat) := by
  simp [containsSub]

theorem isPrefixOf_head_false (x : Char) (xs R : List Char)
    (h : ∀ c, R.head? = some c → ¬ c = x) : (x :: xs).isPrefixOf R = false := by
  cases R with
  | nil => rfl
  | cons c R1 =>
    have hne : (x == c) = false := by
      rw [beq_eq_false_iff_ne]
      intro he
      exact h c rfl he.symm
    simp [List.isPrefixOf, hne]

/-- After `name.replace("4.6", "4-6")` no occurrence of `4.6` remains:
the replacement neither skips an occurrence (it scans left to right)
nor creates a new one (it starts with `4` and ends with `6`, like the
pattern, and differs in the middle). -/
theorem replaceL46_no46_aux : ∀ (n : Nat) (l : List Char), l.length ≤ n →
    containsSub (replaceL "4.6".data "4-6".data l) "4.6".data = false := by
  intro n
  induction n with
  | zero =>
    intro l hlen
    have hl0 : l = [] := List.length_eq_zero.mp (Nat.le_zero.mp hlen)
    subst hl0
    rw [replaceL_nil]
    decide
  | succ n ih =>
    intro l hlen
    cases l with
    | nil =>
      rw [replaceL_nil]
      decide
    | cons c rest =>
      rw [List.length_cons] at hlen
      by_cases hpre : "4.6".data.isPrefixOf (c :: rest) = true
      · rw [replaceL_cons_pos _ _ _ _ ⟨by decide, hpre⟩]
        cases rest with
        | nil => simp [List.isPrefixOf] at hpre
        | cons c2 rest2 =>
          cases rest2 with
          | nil => simp [List.isPrefixOf] at hpre
          | cons c3 rest3 =>
            obtain ⟨hc, hc2, hc3⟩ : '4' = c ∧ '.' = c2 ∧ '6' = c3 := by
              simpa [List.isPrefixOf] using hpre
            subst hc
            subst hc2
            subst hc3
            have hdrop : ('4' :: '.' :: '6' :: rest3).drop "4.6".data.length = rest3 := rfl
            rw [hdrop]
            have hcons : "4-6".data ++ replaceL "4.6".data "4-6".data rest3 =
                '4' :: '-' :: '6' :: replaceL "4.6".data "4-6".data rest3 := rfl
            rw [hcons, containsSub_cons, containsSub_cons, containsSub_cons]
            have h1 : "4.6".data.isPrefixOf
                ('4' :: '-' :: '6' :: replaceL "4.6".data "4-6".data rest3) = false := by
              simp [List.isPrefixOf]
            have h2 : "4.6".data.isPrefixOf
                ('-' :: '6' :: replaceL "4.6".data "4-6".data rest3) = false := by
              simp [List.isPrefixOf]
            have h3 : "4.6".data.isPrefixOf
                ('6' :: replaceL "4.6".data "4-6".data rest3) = false := by
              simp [List.isPrefixOf]
            rw [h1, h2, h3, ih rest3 (by simp only [List.length_cons] at hlen; omega)]
            decide
      · have hp : ¬("4.6".data ≠ [] ∧ "4.6".data.isPrefixOf (c :: rest) = true) :=
          fun hh => hpre hh.2
        rw [replaceL_cons_neg _ _ _ _ hp, containsSub_cons,
          ih rest (by omega), Bool.or_false]
        by_cases hc : c = '4'
        · subst hc
          have hred : "4.6".data.isPrefixOf
              ('4' :: replaceL "4.6".data "4-6".data rest) =
              ('.' :: '6' :: ([] : List Char)).isPrefixOf
                (replaceL "4.6".data "4-6".data rest) := by
            simp [List.isPrefixOf]
          rw [hred]
          cases hrw : rest with
          | nil =>
            rw [replaceL_nil]
            decide
          | cons r0 rest1 =>
            by_cases hr0 : r0 = '.'
            · subst hr0
              rw [hrw] at hpre
              have h6 : ∀ c6, rest1.head? = some c6 → ¬ c6 = '6' := by
                intro c6 hc6 habs
                subst habs
                cases rest1 with
                | nil => exact Option.noConfusion hc6
                | cons s ss =>
                  cases hc6
                  exact hpre (by simp [List.isPrefixOf])
              have hstep : replaceL "4.6".data "4-6".data ('.' :: rest1) =
                  '.' :: replaceL "4.6".data "4-6".data rest1 := by
                apply replaceL_cons_neg
                intro hh
                have := hh.2
                simp [List.isPrefixOf] at this
              rw [hstep]
              have hred2 : ('.' :: '6' :: ([] : List Char)).isPrefixOf
                  ('.' :: replaceL "4.6".data "4-6".data rest1) =
                  ('6' :: ([] : List Char)).isPrefixOf
                    (replaceL "4.6".data "4-6".data rest1) := by
                simp [List.isPrefixOf]
              rw [hred2]
              apply isPrefixOf_head_false
              intro cc hcc
              rw [replaceL_head? _ _ (by decide) (by decide)] at hcc
              exact h6 cc hcc
            · apply isPrefixOf_head_false
              intro cc hcc
              rw [replaceL_head? _ _ (by decide) (by decide)] at hcc
              cases hcc
              exact hr0
        · apply isPrefixOf_head_false
          intro cc hcc
          have : cc = c := by
            have hR : (c :: replaceL "4.6".data "4-6".data rest).head? = some c := rfl
            rw [hR] at hcc
            exact (Option.some.inj hcc).symm
          subst this
          exact hc

theorem replaceL46_no46 (l : List Char) :
    containsSub (replaceL "4.6".data "4-6".data l) "4.6".data = false :=
  replaceL46_no46_aux l.length l (Nat.le_refl _)

/-! ## The two rewriting steps of the normalizer are idempotent -/

theorem data_string_append (a b : String) : (a ++ b).data = a.data ++ b.data := rfl

theorem lowerStr_append (a b : String) :
    lowerStr (a ++ b) = lowerStr a ++ lowerStr b := by
  apply congrArg String.mk
  rw [data_string_append]
  exact List.map_append _ _ _

theorem startsW_append (p r : String) : startsW (p ++ r) p = true := by
  rw [startsW, data_string_append]
  exact List.isPrefixOf_iff_prefix.mpr (List.prefix_append _ _)

theorem knownPfx_openrouter (r : String) :
    knownPfx (lowerStr ("openrouter/" ++ r)) = true := by
  rw [lowerStr_append]
  have h : lowerStr "openrouter/" = "openrouter/" := by decide
  rw [h, knownPfx]
  rw [startsW_append]
  simp

theorem knownPfx_anthropic (r : String) :
    knownPfx (lowerStr ("anthropic/" ++ r)) = true := by
  rw [lowerStr_append]
  have h : lowerStr "anthropic/" = "anthropic/" := by decide
  rw [h, knownPfx]
  rw [startsW_append]
  simp

theorem pfxFix_idem (z : String) : pfxFix (pfxFix z) = pfxFix z := by
  by_cases h : (z.data.contains '/' && !(knownPfx (lowerStr z))) = true
  · have h1 : pfxFix z = "openrouter/" ++ z := by
      rw [pfxFix, if_pos h]
    rw [h1, pfxFix, if_neg (by rw [knownPfx_openrouter]; simp)]
  · have h1 : pfxFix z = z := by
      rw [pfxFix, if_neg h]
    rw [h1, h1]

theorem anthFix_applied (w : String) (hs : startsW w "anthropic/" = true)
    (h46 : containsSub (w.data.drop 10) "4.6".data = true) :
    anthFix w =
      "anthropic/" ++ (⟨replaceL "4.6".data "4-6".data (w.data.drop 10)⟩ : String) := by
  rw [anthFix, if_pos hs, if_pos h46]

theorem anthFix_skip (w : String)
    (h : ¬(startsW w "anthropic/" = true ∧ containsSub (w.data.drop 10) "4.6".data = true)) :
    anthFix w = w := by
  rw [anthFix]
  by_cases hs : startsW w "anthropic/" = true
  · rw [if_pos hs, if_neg (fun h46 => h ⟨hs, h46⟩)]
  · rw [if_neg hs]

theorem drop10_anthropic (s : String) :
    ("anthropic/" ++ s).data.drop 10 = s.data := by
  rw [data_string_append]
  have h : ("anthropic/" : String).data.length = 10 := by decide
  rw [← h]
  exact List.drop_left _ _

theorem anthFix_idem (w : String) : anthFix (anthFix w) = anthFix w := by
  by_cases hs : startsW w "anthropic/" = true
  · by_cases h46 : containsSub (w.data.drop 10) "4.6".data = true
    · rw [anthFix_applied w hs h46]
      apply anthFix_skip
      intro hh
      have h2 := hh.2
      rw [drop10_anthropic] at h2
      rw [replaceL46_no46] at h2
      exact Bool.false_ne_true h2
    · rw [anthFix_skip w (fun hh => h46 hh.2), anthFix_skip w (fun hh => h46 hh.2)]
  · rw [anthFix_skip w (fun hh => hs hh.1), anthFix_skip w (fun hh => hs hh.1)]

theorem pfxFix_after_anthFix (w : String) (hw : pfxFix w = w) :
    pfxFix (anthFix w) = anthFix w := by
  by_cases hs : startsW w "anthropic/" = true
  · by_cases h46 : containsSub (w.data.drop 10) "4.6".data = true
    · rw [anthFix_applied w hs h46, pfxFix, if_neg (by rw [knownPfx_anthropic]; simp)]
    · rw [anthFix_skip w (fun hh => h46 hh.2)]
      exact hw
  · rw [anthFix_skip w (fun hh => hs hh.1)]
    exact hw

/-- The composition of the prefix fix and the anthropic fix is
idempotent: once normalized, re-normalizing a resolved id through the
two rewriting steps changes nothing. -/
theorem fixes_idem (z : String) :
    anthFix (pfxFix (anthFix (pfxFix z))) = anthFix (pfxFix z) := by
  rw [pfxFix_after_anthFix (pfxFix z) (pfxFix_idem z), anthFix_idem]

/-! ## The two rewriting steps preserve strippedness -/

theorem pfxFix_stripped (z : String) (hz : stripStr z = z) :
    stripStr (pfxFix z) = pfxFix z := by
  by_cases h : (z.data.contains '/' && !(knownPfx (lowerStr z))) = true
  · have h1 : pfxFix z = "openrouter/" ++ z := by
      rw [pfxFix, if_pos h]
    rw [h1]
    have hzn : z.data ≠ [] := by
      intro habs
      rw [habs] at h
      simp [List.contains] at h
    apply stripStr_eq_self
    · intro c hc
      rw [data_string_append] at hc
      cases hc
      decide
    · intro c hc
      rw [data_string_append, getLast?_append_ne_nil _ _ hzn] at hc
      exact stripped_getLast z hz c hc
  · rw [pfxFix, if_neg h]
    exact hz

theorem anthFix_stripped (w : String) (hw : stripStr w = w) :
    stripStr (anthFix w) = anthFix w := by
  by_cases hs : startsW w "anthropic/" = true
  · by_cases h46 : containsSub (w.data.drop 10) "4.6".data = true
    · rw [anthFix_applied w hs h46]
      have hname : w.data.drop 10 ≠ [] := by
        intro habs
        rw [habs] at h46
        exact Bool.false_ne_true ((by decide :
          containsSub [] "4.6".data = false) ▸ h46)
      have hrne : replaceL "4.6".data "4-6".data (w.data.drop 10) ≠ [] :=
        replaceL_ne_nil _ _ (by decide) _ hname
      have hwdecomp : "anthropic/".data ++ w.data.drop 10 = w.data := by
        have hpre : ("anthropic/" : String).data <+: w.data :=
          List.isPrefixOf_iff_prefix.mp hs
        have := List.prefix_iff_eq_append.mp hpre
        rw [show ("anthropic/" : String).data.length = 10 from by decide] at this
        exact this
      apply stripStr_eq_self
      · intro c hc
        rw [data_string_append] at hc
        cases hc
        decide
      · intro c hc
        rw [data_string_append, getLast?_append_ne_nil _ _ hrne] at hc
        rw [replaceL_getLast? _ _ (by decide) (by decide) (by decide)] at hc
        apply stripped_getLast w hw
        rw [← hwdecomp]
        rw [getLast?_append_ne_nil _ _ hname]
        exact hc
    · rw [anthFix_skip w (fun hh => h46 hh.2)]
      exact hw
  · rw [anthFix_skip w (fun hh => hs hh.1)]
    exact hw

/-! ## The alias index holds only stripped values -/

theorem mem_dassign : ∀ (d : SDict) (k v : String) (p : String × String),
    p ∈ dassign d k v → p ∈ d ∨ p = (k, v) := by
  intro d
  induction d with
  | nil =>
    intro k v p hp
    simp only [dassign, List.mem_singleton] at hp
    exact Or.inr hp
  | cons q rest ih =>
    intro k v p hp
    obtain ⟨qk, qv⟩ := q
    by_cases hq : qk = k
    · rw [dassign, if_pos hq] at hp
      rcases List.mem_cons.mp hp with h | h
      · exact Or.inr h
      · exact Or.inl (List.mem_cons_of_mem _ h)
    · rw [dassign, if_neg hq] at hp
      rcases List.mem_cons.mp hp with h | h
      · exact Or.inl (h ▸ List.mem_cons_self _ _)
      · rcases ih k v p h with h' | h'
        · exact Or.inl (List.mem_cons_of_mem _ h')
        · exact Or.inr h'

theorem foldl_pres {α : Type} (f : SDict → α → SDict) (P : SDict → Prop) :
    ∀ (l : List α) (d : SDict), (∀ d' a, a ∈ l → P d' → P (f d' a)) → P d →
      P (l.foldl f d) := by
  intro l
  induction l with
  | nil =>
    intro d _ hd
    exact hd
  | cons a t ih =>
    intro d hstep hd
    rw [List.foldl_cons]
    exact ih _ (fun d' b hb => hstep d' b (List.mem_cons_of_mem a hb))
      (hstep d a (List.mem_cons_self a t) hd)

theorem strippedVals_dassign (d : SDict) (k v : String) (hd : StrippedVals d)
    (hv : stripStr v = v) : StrippedVals (dassign d k v) := by
  intro p hp
  rcases mem_dassign d k v p hp with h | h
  · exact hd p h
  · rw [h]
    exact hv

theorem strippedVals_dsetdefault (d : SDict) (k v : String) (hd : StrippedVals d)
    (hv : stripStr v = v) : StrippedVals (dsetdefault d k v) := by
  intro p hp
  rw [dsetdefault] at hp
  by_cases hk : (dget d k).isSome
  · rw [if_pos hk] at hp
    exact hd p hp
  · rw [if_neg hk] at hp
    rcases List.mem_append.mp hp with h | h
    · exact hd p h
    · rw [List.mem_singleton.mp h]
      exact hv

theorem strippedVals_aliasFold (mid : String) (hmid : stripStr mid = mid)
    (als : List String) (d : SDict) (hd : StrippedVals d) :
    StrippedVals (als.foldl (aliasStep mid) d) := by
  apply foldl_pres (aliasStep mid) StrippedVals als d ?_ hd
  intro d' a _ hd'
  rw [aliasStep]
  by_cases ha : lowerStr (stripStr a) = ""
  · rw [if_pos ha]
    exact hd'
  · rw [if_neg ha]
    exact strippedVals_dassign _ _ _ hd' hmid

theorem strippedVals_processEntry (pe : String × ModelEntry) (d : SDict)
    (hd : StrippedVals d) : StrippedVals (processEntry d pe) := by
  have hmid : stripStr (stripStr pe.2.id) = stripStr pe.2.id := stripStr_idem _
  by_cases h0 : stripStr pe.2.id = ""
  · simp only [processEntry, if_pos h0]
    exact hd
  · simp only [processEntry, if_neg h0]
    have h3 : StrippedVals (pe.2.aliases.foldl (aliasStep (stripStr pe.2.id))
        (dsetdefault (dassign d (lowerStr (stripStr pe.2.id)) (stripStr pe.2.id))
          (lowerStr (lastComp (stripStr pe.2.id))) (stripStr pe.2.id))) :=
      strippedVals_aliasFold _ hmid _ _
        (strippedVals_dsetdefault _ _ _ (strippedVals_dassign _ _ _ hd hmid) hmid)
    by_cases hanth : pe.1 = "anthropic"
    · rw [if_pos hanth]
      exact strippedVals_dassign _ _ _ (strippedVals_dassign _ _ _ h3 hmid) hmid
    · rw [if_neg hanth]
      exact h3

theorem strippedVals_build (reg : Registry) (ov : SDict) :
    StrippedVals (build_alias_index reg ov) := by
  have hload : StrippedVals (load_aliases ov) := by
    rw [load_aliases]
    apply foldl_pres _ StrippedVals _ _ ?_ ?_
    · intro d' kv _ hd'
      exact strippedVals_dassign _ _ _ hd' (stripStr_idem _)
    · intro p hp
      cases hp
  rw [build_alias_index, dupdate]
  apply foldl_pres _ StrippedVals _ _ ?_ ?_
  · intro d' kv hkv hd'
    exact strippedVals_dassign _ _ _ hd' (hload kv hkv)
  · apply foldl_pres _ StrippedVals _ _ ?_ ?_
    · intro d' pe _ hd'
      exact strippedVals_processEntry pe d' hd'
    · intro p hp
      cases hp

theorem dget_stripped (reg : Registry) (ov : SDict) (k v : String)
    (h : dget (build_alias_index reg ov) k = some v) : stripStr v = v := by
  rw [dget] at h
  cases hf : (build_alias_index reg ov).find? (fun p => p.1 = k) with
  | none =>
    rw [hf] at h
    exact Option.noConfusion h
  | some p =>
    rw [hf] at h
    have hm : p ∈ build_alias_index reg ov := List.mem_of_find?_eq_some hf
    have hs := strippedVals_build reg ov p hm
    rw [← Option.some.inj h]
    exact hs

/-! ## C5: normalization idempotence -/

/-- Every normalizer output is either empty or the two fixes applied to
a stripped resolvent. -/
theorem normalize_model_shape (raw : String) (reg : Registry) (ov : SDict) :
    normalize_model raw reg ov = "" ∨
    ∃ r0, stripStr r0 = r0 ∧ normalize_model raw reg ov = anthFix (pfxFix r0) := by
  by_cases h0 : stripStr raw = ""
  · left
    rw [normalize_model, if_pos h0]
    exact h0
  · right
    cases hd : dget (build_alias_index reg ov) (lowerStr (stripStr raw)) with
    | none =>
      refine ⟨stripStr raw, stripStr_idem raw, ?_⟩
      rw [normalize_model, if_neg h0, hd]
      rfl
    | some v =>
      refine ⟨v, dget_stripped reg ov _ v hd, ?_⟩
      rw [normalize_model, if_neg h0, hd]
      rfl

theorem normalize_model_empty (reg : Registry) (ov : SDict) :
    normalize_model "" reg ov = "" := by
  rw [normalize_model, if_pos (show stripStr "" = "" by decide)]
  decide

/-- C5 (amended): `normalize(normalize(x)) == normalize(x)` holds for
every token whose normalized form the alias index either does not
contain as a key (lowercased) or maps to itself.  An index with a
chained binding — a key bound to an id that is itself a key bound to a
different id — breaks idempotence, as the counterexample shows. -/
theorem normalize_model_idem (raw : String) (reg : Registry) (ov : SDict)
    (h : dget (build_alias_index reg ov) (lowerStr (normalize_model raw reg ov)) = none ∨
      dget (build_alias_index reg ov) (lowerStr (normalize_model raw reg ov)) =
        some (normalize_model raw reg ov)) :
    normalize_model (normalize_model raw reg ov) reg ov = normalize_model raw reg ov := by
  rcases normalize_model_shape raw reg ov with h0 | ⟨r0, hr0, hy⟩
  · rw [h0]
    exact normalize_model_empty reg ov
  · set y := normalize_model raw reg ov with hydef
    have hstr : stripStr y = y := by
      rw [hy]
      exact anthFix_stripped _ (pfxFix_stripped _ hr0)
    by_cases hempty : y = ""
    · rw [hempty]
      exact normalize_model_empty reg ov
    · rw [normalize_model, hstr, if_neg hempty]
      have hgetd : (dget (build_alias_index reg ov) (lowerStr y)).getD y = y := by
        rcases h with h | h <;> rw [h] <;> rfl
      rw [hgetd, hy, fixes_idem]

/-- Witness for the amended C5 on an unknown token over an empty
registry and alias file. -/
theorem normalize_model_idem_witness :
    normalize_model (normalize_model "m" [] []) [] [] = normalize_model "m" [] [] :=
  normalize_model_idem "m" [] [] (Or.inl (by decide))

/-- Counterexample to C5 as stated: with the alias-override source
`{"a": "b", "b": "c"}` (a chain), `normalize("a") = "b"` but
`normalize(normalize("a")) = normalize("b") = "c"`. -/
theorem normalize_model_not_idempotent :
    ¬ (normalize_model (normalize_model "a" [] [("a", "b"), ("b", "c")]) []
        [("a", "b"), ("b", "c")] =
      normalize_model "a" [] [("a", "b"), ("b", "c")]) := by
  decide

/-! ## C9: what one registry entry does to a fixed index key -/

theorem dget_dassign_inv (d : SDict) (k v key id : String)
    (hinv : dget d key = none ∨ dget d key = some id) (hkv : key = k → v = id) :
    dget (dassign d k v) key = none ∨ dget (dassign d k v) key = some id := by
  rw [dget_dassign]
  by_cases h : key = k
  · rw [if_pos h]
    exact Or.inr (by rw [hkv h])
  · rw [if_neg h]
    exact hinv

theorem dget_dassign_keep (d : SDict) (k v key id : String)
    (h : dget d key = some id) (hkv : key = k → v = id) :
    dget (dassign d k v) key = some id := by
  rw [dget_dassign]
  by_cases hh : key = k
  · rw [if_pos hh, hkv hh]
  · rw [if_neg hh]
    exact h

theorem dget_dsetdefault_inv (d : SDict) (k v key id : String)
    (hinv : dget d key = none ∨ dget d key = some id) (hkv : key = k → v = id) :
    dget (dsetdefault d k v) key = none ∨ dget (dsetdefault d k v) key = some id := by
  rw [dget_dsetdefault]
  by_cases hk : (dget d k).isSome
  · rw [if_pos hk]
    exact hinv
  · rw [if_neg hk]
    rcases hinv with h | h
    · rw [h]
      by_cases hky : k = key
      · exact Or.inr (by simp [Option.orElse, if_pos hky, hkv hky.symm])
      · exact Or.inl (by simp [Option.orElse, if_neg hky])
    · rw [h]
      exact Or.inr (by simp [Option.orElse])

theorem dget_dsetdefault_keep (d : SDict) (k v key id : String)
    (h : dget d key = some id) : dget (dsetdefault d k v) key = some id := by
  rw [dget_dsetdefault]
  by_cases hk : (dget d k).isSome
  · rw [if_pos hk]
    exact h
  · rw [if_neg hk, h]
    simp [Option.orElse]

theorem dget_dsetdefault_put (d : SDict) (k v key id : String)
    (hky : key = k) (hv : v = id)
    (hinv : dget d key = none ∨ dget d key = some id) :
    dget (dsetdefault d k v) key = some id := by
  rw [dget_dsetdefault]
  by_cases hk : (dget d k).isSome
  · rw [if_pos hk]
    rcases hinv with h | h
    · rw [hky] at h
      rw [h] at hk
      simp at hk
    · exact h
  · rw [if_neg hk]
    rcases hinv with h | h
    · rw [h]
      simp [Option.orElse, if_pos hky.symm, hv]
    · rw [h]
      simp [Option.orElse]

theorem aliasFold_inv (mid key id : String) (als : List String)
    (hmid : ∀ a ∈ als, key = lowerStr (stripStr a) →
      ¬ lowerStr (stripStr a) = "" → mid = id) (d : SDict)
    (hinv : dget d key = none ∨ dget d key = some id) :
    dget (als.foldl (aliasStep mid) d) key = none ∨
      dget (als.foldl (aliasStep mid) d) key = some id := by
  apply foldl_pres (aliasStep mid)
    (fun d' => dget d' key = none ∨ dget d' key = some id) als d ?_ hinv
  intro d' a ha hd'
  rw [aliasStep]
  by_cases he : lowerStr (stripStr a) = ""
  · rw [if_pos he]
    exact hd'
  · rw [if_neg he]
    exact dget_dassign_inv _ _ _ _ _ hd' (fun hk => hmid a ha hk he)

theorem aliasFold_keep (mid key id : String) (als : List String)
    (hmid : ∀ a ∈ als, key = lowerStr (stripStr a) →
      ¬ lowerStr (stripStr a) = "" → mid = id) (d : SDict)
    (h : dget d key = some id) :
    dget (als.foldl (aliasStep mid) d) key = some id := by
  apply foldl_pres (aliasStep mid) (fun d' => dget d' key = some id) als d ?_ h
  intro d' a ha hd'
  rw [aliasStep]
  by_cases he : lowerStr (stripStr a) = ""
  · rw [if_pos he]
    exact hd'
  · rw [if_neg he]
    exact dget_dassign_keep _ _ _ _ _ hd' (fun hk => hmid a ha hk he)

theorem processEntry_inv (pe : String × ModelEntry) (key id : String)
    (hent : key ∈ entryKeys pe → stripStr pe.2.id = id) (d : SDict)
    (hinv : dget d key = none ∨ dget d key = some id) :
    dget (processEntry d pe) key = none ∨ dget (processEntry d pe) key = some id := by
  by_cases h0 : stripStr pe.2.id = ""
  · simp only [processEntry, if_pos h0]
    exact hinv
  · have hmem1 : lowerStr (stripStr pe.2.id) ∈ entryKeys pe := by
      rw [entryKeys, if_neg h0]
      simp
    have hmem2 : lowerStr (lastComp (stripStr pe.2.id)) ∈ entryKeys pe := by
      rw [entryKeys, if_neg h0]
      simp
    have hmemA : ∀ a ∈ pe.2.aliases, ¬ lowerStr (stripStr a) = "" →
        lowerStr (stripStr a) ∈ entryKeys pe := by
      intro a ha hne
      rw [entryKeys, if_neg h0]
      refine List.mem_append.mpr (Or.inl (List.mem_append.mpr (Or.inr ?_)))
      refine List.mem_filter.mpr ⟨List.mem_map.mpr ⟨a, ha, rfl⟩, by simp [hne]⟩
    simp only [processEntry, if_neg h0]
    have s1 := dget_dassign_inv d (lowerStr (stripStr pe.2.id)) (stripStr pe.2.id) key id
      hinv (fun hk => hent (hk ▸ hmem1))
    have s2 := dget_dsetdefault_inv _ (lowerStr (lastComp (stripStr pe.2.id)))
      (stripStr pe.2.id) key id s1 (fun hk => hent (hk ▸ hmem2))
    have s3 := aliasFold_inv (stripStr pe.2.id) key id pe.2.aliases
      (fun a ha hk he => hent (hk ▸ hmemA a ha he)) _ s2
    by_cases hanth : pe.1 = "anthropic"
    · rw [if_pos hanth]
      have hmemD : lowerStr (pyReplace (stripStr pe.2.id) "-4-6" "-4.6") ∈ entryKeys pe := by
        rw [entryKeys, if_neg h0]
        refine List.mem_append.mpr (Or.inr ?_)
        rw [if_pos hanth]
        simp
      have hmemE : lowerStr (pyReplace (stripStr pe.2.id) "-4.6" "-4-6") ∈ entryKeys pe := by
        rw [entryKeys, if_neg h0]
        refine List.mem_append.mpr (Or.inr ?_)
        rw [if_pos hanth]
        simp
      exact dget_dassign_inv _ _ _ _ _
        (dget_dassign_inv _ _ _ _ _ s3 (fun hk => hent (hk ▸ hmemD)))
        (fun hk => hent (hk ▸ hmemE))
    · rw [if_neg hanth]
      exact s3

theorem processEntry_keep (pe : String × ModelEntry) (key id : String)
    (hent : key ∈ entryKeys pe → stripStr pe.2.id = id) (d : SDict)
    (h : dget d key = some id) : dget (processEntry d pe) key = some id := by
  by_cases h0 : stripStr pe.2.id = ""
  · simp only [processEntry, if_pos h0]
    exact h
  · have hmem1 : lowerStr (stripStr pe.2.id) ∈ entryKeys pe := by
      rw [entryKeys, if_neg h0]
      simp
    have hmem2 : lowerStr (lastComp (stripStr pe.2.id)) ∈ entryKeys pe := by
      rw [entryKeys, if_neg h0]
      simp
    have hmemA : ∀ a ∈ pe.2.aliases, ¬ lowerStr (stripStr a) = "" →
        lowerStr (stripStr a) ∈ entryKeys pe := by
      intro a ha hne
      rw [entryKeys, if_neg h0]
      refine List.mem_append.mpr (Or.inl (List.mem_append.mpr (Or.inr ?_)))
      refine List.mem_filter.mpr ⟨List.mem_map.mpr ⟨a, ha, rfl⟩, by simp [hne]⟩
    simp only [processEntry, if_neg h0]
    have s1 := dget_dassign_keep d (lowerStr (stripStr pe.2.id)) (stripStr pe.2.id) key id
      h (fun hk => hent (hk ▸ hmem1))
    have s2 := dget_dsetdefault_keep _ (lowerStr (lastComp (stripStr pe.2.id)))
      (stripStr pe.2.id) key id s1
    have s3 := aliasFold_keep (stripStr pe.2.id) key id pe.2.aliases
      (fun a ha hk he => hent (hk ▸ hmemA a ha he)) _ s2
    by_cases hanth : pe.1 = "anthropic"
    · rw [if_pos hanth]
      have hmemD : lowerStr (pyReplace (stripStr pe.2.id) "-4-6" "-4.6") ∈ entryKeys pe := by
        rw [entryKeys, if_neg h0]
        refine List.mem_append.mpr (Or.inr ?_)
        rw [if_pos hanth]
        simp
      have hmemE : lowerStr (pyReplace (stripStr pe.2.id) "-4.6" "-4-6") ∈ entryKeys pe := by
        rw [entryKeys, if_neg h0]
        refine List.mem_append.mpr (Or.inr ?_)
        rw [if_pos hanth]
        simp
      exact dget_dassign_keep _ _ _ _ _
        (dget_dassign_keep _ _ _ _ _ s3 (fun hk => hent (hk ▸ hmemD)))
        (fun hk => hent (hk ▸ hmemE))
    · rw [if_neg hanth]
      exact s3

theorem processEntry_put (pe : String × ModelEntry) (key id : String)
    (hid : stripStr pe.2.id = id) (hne : ¬ id = "")
    (hkey : key = lowerStr id ∨ key = lowerStr (lastComp id)) (d : SDict)
    (hinv : dget d key = none ∨ dget d key = some id) :
    dget (processEntry d pe) key = some id := by
  simp only [processEntry, hid]
  rw [if_neg hne]
  have s2 : dget (dsetdefault (dassign d (lowerStr id) id)
      (lowerStr (lastComp id)) id) key = some id := by
    rcases hkey with hk | hk
    · exact dget_dsetdefault_keep _ _ _ _ _
        (by rw [dget_dassign, if_pos hk])
    · exact dget_dsetdefault_put _ _ _ _ _ hk rfl
        (dget_dassign_inv _ _ _ _ _ hinv (fun _ => rfl))
  have s3 := aliasFold_keep id key id pe.2.aliases (fun _ _ _ _ => rfl) _ s2
  by_cases hanth : pe.1 = "anthropic"
  · rw [if_pos hanth]
    exact dget_dassign_keep _ _ _ _ _
      (dget_dassign_keep _ _ _ _ _ s3 (fun _ => rfl)) (fun _ => rfl)
  · rw [if_neg hanth]
    exact s3

theorem entriesFold_keep (key id : String) :
    ∀ (entries : List (String × ModelEntry)) (d : SDict),
      (∀ pe ∈ entries, key ∈ entryKeys pe → stripStr pe.2.id = id) →
      dget d key = some id →
      dget (entries.foldl processEntry d) key = some id := by
  intro entries d hent h
  apply foldl_pres processEntry (fun d' => dget d' key = some id) entries d ?_ h
  intro d' pe hpe hd'
  exact processEntry_keep pe key id (hent pe hpe) d' hd'

theorem entriesFold_establish (key id : String) (hne : ¬ id = "")
    (hkey : key = lowerStr id ∨ key = lowerStr (lastComp id)) :
    ∀ (entries : List (String × ModelEntry)) (d : SDict),
      (∀ pe ∈ entries, key ∈ entryKeys pe → stripStr pe.2.id = id) →
      (∃ pe ∈ entries, stripStr pe.2.id = id) →
      (dget d key = none ∨ dget d key = some id) →
      dget (entries.foldl processEntry d) key = some id := by
  intro entries
  induction entries with
  | nil =>
    intro d _ hocc _
    rcases hocc with ⟨pe, hpe, _⟩
    cases hpe
  | cons pe rest ih =>
    intro d hent hocc hinv
    rw [List.foldl_cons]
    by_cases hpe : stripStr pe.2.id = id
    · exact entriesFold_keep key id rest _
        (fun pe' h' => hent pe' (List.mem_cons_of_mem pe h'))
        (processEntry_put pe key id hpe hne hkey d hinv)
    · have hinv' := processEntry_inv pe key id
        (hent pe (List.mem_cons_self pe rest)) d hinv
      rcases hocc with ⟨pe', hpe', hid'⟩
      rcases List.mem_cons.mp hpe' with heq | hmem
      · exact absurd (heq ▸ hid') hpe
      · exact ih _ (fun pe' h' => hent pe' (List.mem_cons_of_mem pe h'))
          ⟨pe', hmem, hid'⟩ hinv'

/-! ## C9: the override update -/

theorem dget_none_no_key (d : SDict) (k : String) (h : dget d k = none) :
    ∀ p ∈ d, ¬ p.1 = k := by
  induction d with
  | nil =>
    intro p hp
    cases hp
  | cons q rest ih =>
    intro p hp
    rw [dget_cons] at h
    by_cases hq : q.1 = k
    · rw [if_pos hq] at h
      exact Option.noConfusion h
    · rw [if_neg hq] at h
      rcases List.mem_cons.mp hp with heq | hmem
      · rw [heq]
        exact hq
      · exact ih h p hmem

theorem nodupKeys_dassign : ∀ (d : SDict) (k v : String),
    (d.map Prod.fst).Nodup → ((dassign d k v).map Prod.fst).Nodup := by
  intro d
  induction d with
  | nil =>
    intro k v _
    simp [dassign]
  | cons q rest ih =>
    intro k v hnd
    obtain ⟨qk, qv⟩ := q
    rw [List.map_cons, List.nodup_cons] at hnd
    by_cases hq : qk = k
    · rw [dassign, if_pos hq, List.map_cons, List.nodup_cons]
      exact ⟨hq ▸ hnd.1, hnd.2⟩
    · rw [dassign, if_neg hq, List.map_cons, List.nodup_cons]
      refine ⟨?_, ih k v hnd.2⟩
      intro habs
      rcases List.mem_map.mp habs with ⟨p, hp, hpk⟩
      rcases mem_dassign rest k v p hp with hm | hm
      · exact hnd.1 (hpk ▸ List.mem_map.mpr ⟨p, hm, rfl⟩)
      · rw [hm] at hpk
        exact hq hpk.symm

theorem nodupKeys_load (ov : SDict) : ((load_aliases ov).map Prod.fst).Nodup := by
  rw [load_aliases]
  apply foldl_pres _ (fun d => (d.map Prod.fst).Nodup) _ _ ?_ ?_
  · intro d' kv _ hd'
    exact nodupKeys_dassign d' _ _ hd'
  · simp

theorem dget_of_mem_nodup : ∀ (d : SDict), (d.map Prod.fst).Nodup →
    ∀ p ∈ d, dget d p.1 = some p.2 := by
  intro d
  induction d with
  | nil =>
    intro _ p hp
    cases hp
  | cons q rest ih =>
    intro hnd p hp
    rw [List.map_cons, List.nodup_cons] at hnd
    rcases List.mem_cons.mp hp with heq | hmem
    · rw [heq, dget_cons, if_pos rfl]
    · have hne : ¬ q.1 = p.1 := by
        intro habs
        exact hnd.1 (habs ▸ List.mem_map.mpr ⟨p, hmem, rfl⟩)
      rw [dget_cons, if_neg hne]
      exact ih hnd.2 p hmem

theorem dupdate_skip (key : String) : ∀ (o d : SDict),
    (∀ p ∈ o, ¬ p.1 = key) → dget (dupdate d o) key = dget d key := by
  intro o
  induction o with
  | nil =>
    intro d _
    rfl
  | cons q rest ih =>
    intro d ho
    rw [dupdate, List.foldl_cons]
    rw [show List.foldl (fun acc kv => dassign acc kv.1 kv.2) (dassign d q.1 q.2) rest =
      dupdate (dassign d q.1 q.2) rest from rfl]
    rw [ih _ (fun p hp => ho p (List.mem_cons_of_mem q hp))]
    rw [dget_dassign, if_neg (fun hk => ho q (List.mem_cons_self q rest) hk.symm)]

theorem dupdate_keep (key id : String) : ∀ (o d : SDict),
    (∀ p ∈ o, p.1 = key → p.2 = id) → dget d key = some id →
    dget (dupdate d o) key = some id := by
  intro o d ho h
  rw [dupdate]
  apply foldl_pres _ (fun d' => dget d' key = some id) _ _ ?_ h
  intro d' kv hkv hd'
  exact dget_dassign_keep _ _ _ _ _ hd' (fun hk => ho kv hkv hk.symm)

theorem dupdate_right (key v : String) : ∀ (o d : SDict),
    (o.map Prod.fst).Nodup → dget o key = some v →
    dget (dupdate d o) key = some v := by
  intro o
  induction o with
  | nil =>
    intro d _ h
    exact Option.noConfusion h
  | cons q rest ih =>
    intro d hnd h
    rw [List.map_cons, List.nodup_cons] at hnd
    rw [dupdate, List.foldl_cons]
    rw [show List.foldl (fun acc kv => dassign acc kv.1 kv.2) (dassign d q.1 q.2) rest =
      dupdate (dassign d q.1 q.2) rest from rfl]
    rw [dget_cons] at h
    by_cases hq : q.1 = key
    · rw [if_pos hq] at h
      have hrest : ∀ p ∈ rest, ¬ p.1 = key := by
        intro p hp habs
        exact hnd.1 (hq ▸ habs ▸ List.mem_map.mpr ⟨p, hp, rfl⟩)
      rw [dupdate_skip key rest _ hrest, dget_dassign, if_pos hq.symm, h]
    · rw [if_neg hq] at h
      exact ih _ hnd.2 h

/-- C9 (amended): in `build_alias_index(registry, overrides)`,
(1) a canonical id occurring in the registry maps (case-insensitively)
to itself, and its base name (the id stripped of the provider prefix)
also maps to it, **provided** no other registry entry binds the same
key to a different id and the external overrides do not rebind it to a
different value; (2) explicit overrides always take precedence: any key
of the override source keeps its override value in the final index.
The unconditional self-map of the original claim is false: a later
entry whose alias (or id, or base name) collides with an earlier
entry's canonical id silently rebinds it (see counterexample). -/
theorem build_alias_index_amended (reg : Registry) (ov : SDict) :
    (∀ (pe : String × ModelEntry) (key id : String),
      pe ∈ allEntries reg → stripStr pe.2.id = id → ¬ id = "" →
      (key = lowerStr id ∨ key = lowerStr (lastComp id)) →
      (∀ pe' ∈ allEntries reg, key ∈ entryKeys pe' → stripStr pe'.2.id = id) →
      (∀ p ∈ load_aliases ov, p.1 = key → p.2 = id) →
      dget (build_alias_index reg ov) key = some id) ∧
    (∀ key v, dget (load_aliases ov) key = some v →
      dget (build_alias_index reg ov) key = some v) := by
  constructor
  · intro pe key id hmem hid hne hkey hcons hov
    rw [build_alias_index]
    exact dupdate_keep key id (load_aliases ov) _ hov
      (entriesFold_establish key id hne hkey (allEntries reg) [] hcons
        ⟨pe, hmem, hid⟩ (Or.inl rfl))
  · intro key v h
    rw [build_alias_index]
    exact dupdate_right key v (load_aliases ov) _ (nodupKeys_load ov) h

/-- Witness for the amended C9: a one-entry registry where the id maps
to itself and an unrelated override key keeps its override value. -/
theorem build_alias_index_amended_witness :
    dget (build_alias_index [("p", [ModelEntry.mk "x" []])] [("y", "z")]) "x"
      = some "x" ∧
    dget (build_alias_index [("p", [ModelEntry.mk "x" []])] [("y", "z")]) "y"
      = some "z" :=
  ⟨(build_alias_index_amended [("p", [ModelEntry.mk "x" []])] [("y", "z")]).1
      ("p", ModelEntry.mk "x" []) "x" "x"
      (by decide) (by decide) (by decide) (Or.inl (by decide))
      (by decide) (by decide),
   (build_alias_index_amended [("p", [ModelEntry.mk "x" []])] [("y", "z")]).2
      "y" "z" (by decide)⟩

/-- Counterexample to C9 as stated: with no overrides at all, the
canonical id `openrouter/b` of the first provider's entry does **not**
map to itself in the built index — a later entry listing it as an alias
rebinds it to `openrouter/z`. -/
theorem build_alias_index_self_map_cex :
    ("p", ModelEntry.mk "openrouter/b" []) ∈
      allEntries [("p", [ModelEntry.mk "openrouter/b" []]),
                  ("q", [ModelEntry.mk "openrouter/z" ["openrouter/b"]])] ∧
    dget (build_alias_index
        [("p", [ModelEntry.mk "openrouter/b" []]),
         ("q", [ModelEntry.mk "openrouter/z" ["openrouter/b"]])] [])
        (lowerStr (stripStr "openrouter/b")) = some "openrouter/z" ∧
    ¬ ("openrouter/z" = stripStr "openrouter/b") := by
  refine ⟨by decide, by decide, by decide⟩

/-! ## C6: local validation -/

/-- C6: `validate(id, registry, "local")` succeeds iff the lowercased
id is a key of the alias index built from the registry (together with
its alias-override source); on failure the reason names the missing id;
`validate(id, registry, "none")` always succeeds. -/
theorem validate_local_iff_indexed (model_id : String) (reg : Registry) (ov : SDict)
    (resp : Option (List String)) :
    ((validate_model model_id reg ov "local" resp).1 = true ↔
      (dget (build_alias_index reg ov) (lowerStr model_id)).isSome) ∧
    ((validate_model model_id reg ov "local" resp).1 = false →
      (validate_model model_id reg ov "local" resp).2 =
        "Model not found in local registry: " ++ model_id) ∧
    (validate_model model_id reg ov "none" resp).1 = true := by
  unfold validate_model local_model_exists
  by_cases hl : (dget (build_alias_index reg ov) (lowerStr model_id)).isSome <;>
    simp [hl]

/-- Witness for C6 at a concrete registry: `"x"` is locally known,
`"y"` is not, and the failure reason names it. -/
theorem validate_local_iff_indexed_witness :
    (validate_model "x" [("p", [⟨"x", []⟩])] [] "local" none).1 = true ∧
    (validate_model "y" [("p", [⟨"x", []⟩])] [] "local" none).2 =
      "Model not found in local registry: y" := by
  constructor
  · exact (validate_local_iff_indexed "x" [("p", [⟨"x", []⟩])] [] none).1.mpr (by decide)
  · exact (validate_local_iff_indexed "y" [("p", [⟨"x", []⟩])] [] none).2.1 (by decide)

/-! ## C7: remote validation is total and fails closed -/

/-- C7: for a locally present id, remote-mode validation always yields
a defined `(ok, reason)` pair (never a crash): a provider other than
`openrouter` (which has the only implemented remote check) is treated
as valid, and a failed outbound catalog query (`resp = none`, covering
network errors, non-zero curl exits, timeouts and parse failures)
yields a not-found failure with a reason. -/
theorem validate_remote_fails_closed (model_id : String) (reg : Registry) (ov : SDict)
    (resp : Option (List String))
    (hloc : local_model_exists model_id reg ov = true) :
    (provider_from_model model_id ≠ "openrouter" →
      validate_model model_id reg ov "remote" resp =
        (true, "Remote validation passed: " ++ model_id)) ∧
    (provider_from_model model_id = "openrouter" → resp = none →
      validate_model model_id reg ov "remote" resp =
        (false, "Remote validation failed: " ++ model_id)) ∧
    (validate_model model_id reg ov "remote" resp =
        (true, "Remote validation passed: " ++ model_id) ∨
      validate_model model_id reg ov "remote" resp =
        (false, "Remote validation failed: " ++ model_id)) := by
  unfold validate_model remote_validate
  refine ⟨?_, ?_, ?_⟩
  · intro hpr
    by_cases ha : provider_from_model model_id = "anthropic" <;>
      simp [hloc, hpr, ha]
  · intro hpr hresp
    subst hresp
    simp [hloc, hpr, openrouter_has_model]
  · by_cases hpr : provider_from_model model_id = "openrouter"
    · by_cases ho : openrouter_has_model model_id resp <;> simp [hloc, hpr, ho]
    · by_cases ha : provider_from_model model_id = "anthropic" <;>
        simp [hloc, hpr, ha]

/-- Witness for C7: a locally present `openrouter` id with a failed
outbound query validates to a not-found failure, not a crash. -/
theorem validate_remote_fails_closed_witness :
    validate_model "openrouter/m" [("openrouter", [⟨"openrouter/m", []⟩])] [] "remote" none =
      (false, "Remote validation failed: " ++ "openrouter/m") :=
  (validate_remote_fails_closed "openrouter/m" [("openrouter", [⟨"openrouter/m", []⟩])] []
    none (by decide)).2.1 (by decide) rfl

theorem jget_jset_same (fs : List (String × Json)) (k : String) (v : Json) :
    jget (jset fs k v) k = some v := by
  rw [jget_jset, if_pos rfl]

theorem jget_jset_other (fs : List (String × Json)) (k k' : String) (v : Json)
    (h : k' ≠ k) : jget (jset fs k v) k' = jget fs k' := by
  rw [jget_jset, if_neg h]

/-! ## Shape analysis of `patch_config` -/

/-- A successful `patch_config` decomposes into: the three container
objects it walked (created as `{}` where absent), and either no
`agents.list` key at all, or a list patched agent by agent. -/
theorem patch_config_cases (model_id : String) (cfg cfg' : List (String × Json))
    (h : patch_config model_id cfg = some cfg') :
    ∃ agents0 defaults0 model0,
      asObj (jgetD cfg "agents" (.obj [])) = some agents0 ∧
      asObj (jgetD agents0 "defaults" (.obj [])) = some defaults0 ∧
      asObj (jgetD defaults0 "model" (.obj [])) = some model0 ∧
      ((jget agents0 "list" = none ∧
          cfg' = jset cfg "agents" (.obj (patchCore model_id agents0 defaults0 model0))) ∨
        (∃ xs xs', jget agents0 "list" = some (.arr xs) ∧
          patchAgents model_id xs = some xs' ∧
          cfg' = jset cfg "agents"
            (.obj (jset (patchCore model_id agents0 defaults0 model0) "list" (.arr xs'))))) := by
  unfold patch_config at h
  cases h0 : asObj (jgetD cfg "agents" (.obj [])) with
  | none =>
    simp only [h0] at h
    exact Option.noConfusion h
  | some agents0 =>
    simp only [h0] at h
    cases h1 : asObj (jgetD agents0 "defaults" (.obj [])) with
    | none =>
      simp only [h1] at h
      exact Option.noConfusion h
    | some defaults0 =>
      simp only [h1] at h
      cases h2 : asObj (jgetD defaults0 "model" (.obj [])) with
      | none =>
        simp only [h2] at h
        exact Option.noConfusion h
      | some model0 =>
        simp only [h2] at h
        refine ⟨agents0, defaults0, model0, rfl, h1, h2, ?_⟩
        have hlx : jget (patchCore model_id agents0 defaults0 model0) "list" =
            jget agents0 "list" := by
          rw [patchCore, jget_jset_other _ _ _ _ (by decide)]
        cases hl : jget agents0 "list" with
        | none =>
          rw [hlx, hl] at h
          cases h
          exact Or.inl ⟨rfl, rfl⟩
        | some v =>
          rw [hlx, hl] at h
          cases v with
          | arr xs =>
            cases hm : patchAgents model_id xs with
            | none =>
              simp only [hm] at h
              exact Option.noConfusion h
            | some xs' =>
              simp only [hm] at h
              cases h
              exact Or.inr ⟨xs, xs', rfl, hm, rfl⟩
          | null => simp at h
          | bool b => simp at h
          | num n => simp at h
          | str s => simp at h
          | obj fs => simp at h

/-- How `patch_agent` treats one agent. -/
theorem patch_agent_shape (model_id : String) (a a' : Json)
    (h : patch_agent model_id a = some a') :
    (isMainAgent a = false ∧ (∃ fs, a = .obj fs) ∧ a' = a) ∨
    (isMainAgent a = true ∧ ∃ fs m, a = .obj fs ∧
      jget fs "id" = some (.str "main") ∧
      asObj (jgetD fs "model" (.obj [])) = some m ∧
      a' = .obj (jset fs "model" (.obj (jset m "primary" (.str model_id))))) := by
  cases a with
  | obj fs =>
    cases hid : jget fs "id" with
    | none =>
      simp only [patch_agent, hid, Option.some.injEq] at h
      exact Or.inl ⟨by simp [isMainAgent, hid], ⟨fs, rfl⟩, h.symm⟩
    | some v =>
      cases v with
      | str s =>
        by_cases hs : s = "main"
        · subst hs
          cases hm : asObj (jgetD fs "model" (.obj [])) with
          | none => simp [patch_agent, hid, hm] at h
          | some m =>
            simp only [patch_agent, hid, hm, if_pos rfl, if_true, Option.some.injEq] at h
            exact Or.inr ⟨by simp [isMainAgent, hid], fs, m, rfl, hid, hm, h.symm⟩
        · simp only [patch_agent, hid, if_neg hs, Option.some.injEq] at h
          exact Or.inl ⟨by simp [isMainAgent, hid, hs], ⟨fs, rfl⟩, h.symm⟩
      | null =>
        simp only [patch_agent, hid, Option.some.injEq] at h
        exact Or.inl ⟨by simp [isMainAgent, hid], ⟨fs, rfl⟩, h.symm⟩
      | bool b =>
        simp only [patch_agent, hid, Option.some.injEq] at h
        exact Or.inl ⟨by simp [isMainAgent, hid], ⟨fs, rfl⟩, h.symm⟩
      | num n =>
        simp only [patch_agent, hid, Option.some.injEq] at h
        exact Or.inl ⟨by simp [isMainAgent, hid], ⟨fs, rfl⟩, h.symm⟩
      | arr xs =>
        simp only [patch_agent, hid, Option.some.injEq] at h
        exact Or.inl ⟨by simp [isMainAgent, hid], ⟨fs, rfl⟩, h.symm⟩
      | obj gs =>
        simp only [patch_agent, hid, Option.some.injEq] at h
        exact Or.inl ⟨by simp [isMainAgent, hid], ⟨fs, rfl⟩, h.symm⟩
  | null => simp [patch_agent] at h
  | bool b => simp [patch_agent] at h
  | num n => simp [patch_agent] at h
  | str s => simp [patch_agent] at h
  | arr xs => simp [patch_agent] at h

/-- `patchAgents` relates input and output lists pointwise. -/
theorem patchAgents_forall₂ (model_id : String) :
    ∀ xs xs', patchAgents model_id xs = some xs' →
      List.Forall₂ (fun a a' => patch_agent model_id a = some a') xs xs' := by
  intro xs
  induction xs with
  | nil =>
    intro xs' h
    cases h
    exact List.Forall₂.nil
  | cons a rest ih =>
    intro xs' h
    unfold patchAgents at h
    cases ha : patch_agent model_id a with
    | none =>
      simp only [ha] at h
      exact Option.noConfusion h
    | some a' =>
      simp only [ha] at h
      cases hrest : patchAgents model_id rest with
      | none =>
        simp only [hrest] at h
        exact Option.noConfusion h
      | some rest' =>
        simp only [hrest] at h
        cases h
        exact List.Forall₂.cons ha (ih _ hrest)

/-! ## C3: a successful patch sets both locations and `current_model`
reports the new id -/

/-- The `current_model` loop over a patched list either falls through
or returns the new id. -/
theorem currentModelLoop_patched (model_id : String) :
    ∀ xs xs', patchAgents model_id xs = some xs' →
      currentModelLoop xs' = some none ∨
      currentModelLoop xs' = some (some (.str model_id)) := by
  intro xs
  induction xs with
  | nil =>
    intro xs' h
    cases h
    exact Or.inl rfl
  | cons a rest ih =>
    intro xs' h
    unfold patchAgents at h
    cases ha : patch_agent model_id a with
    | none =>
      simp only [ha] at h
      exact Option.noConfusion h
    | some a' =>
      simp only [ha] at h
      cases hrest : patchAgents model_id rest with
      | none =>
        simp only [hrest] at h
        exact Option.noConfusion h
      | some rest' =>
        simp only [hrest] at h
        cases h
        rcases patch_agent_shape model_id a a' ha with ⟨hmain, ⟨fs, rfl⟩, rfl⟩ |
          ⟨hmain, fs, m, rfl, hid, hm, rfl⟩
        · cases hid : jget fs "id" with
          | none =>
            simp only [currentModelLoop, hid]
            exact ih _ hrest
          | some v =>
            cases v with
            | str s =>
              have hs : ¬ s = "main" := by
                simp only [isMainAgent, hid] at hmain
                simpa using hmain
              simp only [currentModelLoop, hid, if_neg hs]
              exact ih _ hrest
            | null =>
              simp only [currentModelLoop, hid]
              exact ih _ hrest
            | bool b =>
              simp only [currentModelLoop, hid]
              exact ih _ hrest
            | num n =>
              simp only [currentModelLoop, hid]
              exact ih _ hrest
            | arr ys =>
              simp only [currentModelLoop, hid]
              exact ih _ hrest
            | obj gs =>
              simp only [currentModelLoop, hid]
              exact ih _ hrest
        · have hid' : jget (jset fs "model" (.obj (jset m "primary" (.str model_id)))) "id" =
              some (.str "main") := by
            rw [jget_jset_other _ _ _ _ (by decide)]
            exact hid
          have hmp : jgetD (jset fs "model" (.obj (jset m "primary" (.str model_id))))
              "model" (.obj []) = .obj (jset m "primary" (.str model_id)) := by
            rw [jgetD, jget_jset_same]
            rfl
          have hloopcons : currentModelLoop
              (Json.obj (jset fs "model" (Json.obj (jset m "primary" (Json.str model_id))))
                :: rest') =
              if truthy (Json.str model_id) = true then some (some (Json.str model_id))
              else currentModelLoop rest' := by
            simp only [currentModelLoop, hid', if_pos rfl, if_true, hmp, asObj,
              jget_jset_same, Option.getD_some]
          by_cases hempty : model_id = ""
          · subst hempty
            rw [hloopcons, if_neg (by decide)]
            exact ih _ hrest
          · rw [hloopcons, if_pos (by simp only [truthy, decide_eq_true_eq]; exact hempty)]
            exact Or.inr rfl

/-- A patched agent that comes out with id `"main"` carries the new
`model.primary` (a pass-through agent cannot come out `"main"`, since
pass-through means its input already failed the `"main"` test). -/
theorem patch_agent_out_main (model_id : String) (a a' : Json)
    (h : patch_agent model_id a = some a') (hmain : isMainAgent a' = true) :
    getPath a' ["model", "primary"] = some (.str model_id) := by
  rcases patch_agent_shape model_id a a' h with ⟨hf, _, rfl⟩ | ⟨_, fs, m, rfl, hid, hm, rfl⟩
  · rw [hmain] at hf
    cases hf
  · simp only [getPath, jget_jset_same]

theorem forallTwoMemRight {α β : Type} {R : α → β → Prop} :
    ∀ (xs : List α) (xs' : List β), List.Forall₂ R xs xs' →
      ∀ a' ∈ xs', ∃ a, R a a' := by
  intro xs xs' h
  induction h with
  | nil =>
    intro a' ha'
    cases ha'
  | cons hR _ ih =>
    intro a' ha'
    rcases List.mem_cons.mp ha' with rfl | hmem
    · exact ⟨_, hR⟩
    · exact ih _ hmem

/-- C3: after a successful `patch_config(canonicalId)`,
`agents.defaults.model.primary` equals the canonical id, every `main`
agent's `model.primary` equals it too, and `current_model` on the
patched document returns it. -/
theorem patch_config_sets_model (model_id : String) (cfg cfg' : List (String × Json))
    (hpatch : patch_config model_id cfg = some cfg') :
    getPath (.obj cfg') ["agents", "defaults", "model", "primary"] =
      some (.str model_id) ∧
    (∀ xs a, getPath (.obj cfg') ["agents", "list"] = some (.arr xs) → a ∈ xs →
      isMainAgent a = true → getPath a ["model", "primary"] = some (.str model_id)) ∧
    current_model cfg' = some (.str model_id) := by
  obtain ⟨agents0, defaults0, model0, h0, h1, h2, hcase⟩ :=
    patch_config_cases model_id cfg cfg' hpatch
  have hd1 : jget (patchCore model_id agents0 defaults0 model0) "defaults" =
      some (.obj (jset defaults0 "model" (.obj (jset model0 "primary" (.str model_id))))) := by
    rw [patchCore]
    exact jget_jset_same _ _ _
  have h3 : jgetD (jset defaults0 "model" (.obj (jset model0 "primary" (.str model_id))))
      "model" (.obj []) = .obj (jset model0 "primary" (.str model_id)) := by
    rw [jgetD, jget_jset_same]
    rfl
  have h4 : jgetD (jset model0 "primary" (.str model_id)) "primary" (.str "(unknown)") =
      .str model_id := by
    rw [jgetD, jget_jset_same]
    rfl
  have hprim : ∀ agents2, jget agents2 "defaults" =
      some (.obj (jset defaults0 "model" (.obj (jset model0 "primary" (.str model_id))))) →
      getPath (.obj (jset cfg "agents" (.obj agents2)))
        ["agents", "defaults", "model", "primary"] = some (.str model_id) := by
    intro agents2 hdef
    simp only [getPath, jget_jset_same, hdef, jget_jset_same]
  rcases hcase with ⟨hl, rfl⟩ | ⟨xs, xs', hl, hxs, rfl⟩
  · have hgl : jget (patchCore model_id agents0 defaults0 model0) "list" = none := by
      rw [patchCore, jget_jset_other _ _ _ _ (by decide)]
      exact hl
    refine ⟨hprim _ hd1, ?_, ?_⟩
    · intro ys a hys
      have hnone : getPath
          (.obj (jset cfg "agents" (.obj (patchCore model_id agents0 defaults0 model0))))
          ["agents", "list"] = none := by
        simp only [getPath, jget_jset_same, hgl]
      rw [hnone] at hys
      exact Option.noConfusion hys
    · have hA : asObj (jgetD
          (jset cfg "agents" (.obj (patchCore model_id agents0 defaults0 model0)))
          "agents" (.obj [])) = some (patchCore model_id agents0 defaults0 model0) := by
        rw [jgetD, jget_jset_same]
        rfl
      have hle : agentsListElems (patchCore model_id agents0 defaults0 model0) = some [] := by
        rw [agentsListElems, hgl]
      have hdefO : asObj (jgetD (patchCore model_id agents0 defaults0 model0) "defaults"
          (.obj [])) =
          some (jset defaults0 "model" (.obj (jset model0 "primary" (.str model_id)))) := by
        rw [jgetD, hd1]
        rfl
      have hmodO : asObj (jgetD (jset defaults0 "model"
          (.obj (jset model0 "primary" (.str model_id)))) "model" (.obj [])) =
          some (jset model0 "primary" (.str model_id)) := by
        rw [h3]
        rfl
      simp only [current_model, hA, hle, currentModelLoop, hdefO, hmodO, h4]
  · have hA2 : asObj (jgetD
        (jset cfg "agents" (.obj (jset (patchCore model_id agents0 defaults0 model0)
          "list" (.arr xs')))) "agents" (.obj [])) =
        some (jset (patchCore model_id agents0 defaults0 model0) "list" (.arr xs')) := by
      rw [jgetD, jget_jset_same]
      rfl
    have hlist : jget (jset (patchCore model_id agents0 defaults0 model0) "list"
        (.arr xs')) "list" = some (.arr xs') := jget_jset_same _ _ _
    have hd2 : jget (jset (patchCore model_id agents0 defaults0 model0) "list"
        (.arr xs')) "defaults" =
        some (.obj (jset defaults0 "model" (.obj (jset model0 "primary" (.str model_id))))) := by
      rw [jget_jset_other _ _ _ _ (by decide)]
      exact hd1
    refine ⟨hprim _ hd2, ?_, ?_⟩
    · intro ys a hys ha hmain
      have harr : getPath (.obj (jset cfg "agents"
          (.obj (jset (patchCore model_id agents0 defaults0 model0) "list" (.arr xs')))))
          ["agents", "list"] = some (.arr xs') := by
        simp only [getPath, jget_jset_same, hlist]
      rw [harr] at hys
      cases hys
      obtain ⟨a0, hpa⟩ :=
        forallTwoMemRight xs xs' (patchAgents_forall₂ model_id xs xs' hxs) a ha
      exact patch_agent_out_main model_id a0 a hpa hmain
    · have hle : agentsListElems (jset (patchCore model_id agents0 defaults0 model0)
          "list" (.arr xs')) = some xs' := by
        rw [agentsListElems, hlist]
      have hdefO : asObj (jgetD (jset (patchCore model_id agents0 defaults0 model0) "list"
          (.arr xs')) "defaults" (.obj [])) =
          some (jset defaults0 "model" (.obj (jset model0 "primary" (.str model_id)))) := by
        rw [jgetD, hd2]
        rfl
      have hmodO : asObj (jgetD (jset defaults0 "model"
          (.obj (jset model0 "primary" (.str model_id)))) "model" (.obj [])) =
          some (jset model0 "primary" (.str model_id)) := by
        rw [h3]
        rfl
      rcases currentModelLoop_patched model_id xs xs' hxs with hloop | hloop
      · simp only [current_model, hA2, hle, hloop, hdefO, hmodO, h4]
      · simp only [current_model, hA2, hle, hloop]

/-- Witness for C3: patching the empty document. -/
theorem patch_config_sets_model_witness :
    patch_config "m" [] = some [("agents",
      Json.obj [("defaults", Json.obj [("model", Json.obj [("primary", Json.str "m")])])])] ∧
    current_model [("agents",
      Json.obj [("defaults", Json.obj [("model", Json.obj [("primary", Json.str "m")])])])] =
      some (Json.str "m") :=
  ⟨rfl, (patch_config_sets_model "m" [] _ rfl).2.2⟩

/-! ## C10: `patch_config` changes nothing else -/

theorem getPath_cons_none (fs : List (String × Json)) (k : String) (ks : List String)
    (h : jget fs k = none) : getPath (.obj fs) (k :: ks) = none := by
  simp [getPath, h]

theorem getPath_cons_some (fs : List (String × Json)) (k : String) (ks : List String)
    (w : Json) (h : jget fs k = some w) :
    getPath (.obj fs) (k :: ks) = getPath w ks := by
  simp [getPath, h]

theorem getPath_single (fs : List (String × Json)) (k : String) :
    getPath (.obj fs) [k] = jget fs k := by
  cases h : jget fs k with
  | none => simp [getPath, h]
  | some w => simp [getPath, h]

/-- What `x.get(k, {})` being usable as a dict means for the underlying
object: the key is absent (and the `{}` default was used) or it holds an
object. -/
theorem asObj_jgetD_cases (fs : List (String × Json)) (k : String)
    (o : List (String × Json)) (h : asObj (jgetD fs k (.obj [])) = some o) :
    (jget fs k = none ∧ o = []) ∨ jget fs k = some (.obj o) := by
  cases hj : jget fs k with
  | none =>
    rw [jgetD, hj] at h
    simp only [Option.getD_none, asObj, Option.some.injEq] at h
    exact Or.inl ⟨rfl, h.symm⟩
  | some v =>
    rw [jgetD, hj] at h
    cases v with
    | obj gs =>
      simp only [Option.getD_some, asObj, Option.some.injEq] at h
      rw [h]
      exact Or.inr rfl
    | null => simp [asObj] at h
    | bool b => simp [asObj] at h
    | num n => simp [asObj] at h
    | str s => simp [asObj] at h
    | arr xs => simp [asObj] at h

/-- One agent of `agents.list` keeps all its unrelated data. -/
theorem patch_agent_frame (model_id : String) (a a' : Json)
    (h : patch_agent model_id a = some a') : agentFrame a a' := by
  rcases patch_agent_shape model_id a a' h with ⟨hf, _, rfl⟩ |
    ⟨hmain, fs, m, rfl, hid, hm, rfl⟩
  · simp [agentFrame, hf]
  · simp only [agentFrame, hmain, if_true, if_pos rfl]
    constructor
    · intro k hk
      rw [getPath_single, getPath_single, jget_jset_other _ _ _ _ hk]
    · intro k hk
      rw [getPath_cons_some _ _ _ _ (jget_jset_same _ _ _), getPath_single,
        jget_jset_other _ _ _ _ hk]
      rcases asObj_jgetD_cases fs "model" m hm with ⟨hnone, rfl⟩ | hsome
      · rw [getPath_cons_none _ _ _ hnone]
        rfl
      · rw [getPath_cons_some _ _ _ _ hsome, getPath_single]

/-- C10: `patch_config(canonicalId)` leaves every part of the document
other than `agents.defaults.model.primary` and the `model.primary` of
`main` agents unchanged: unrelated top-level keys, unrelated keys of
`agents`, of `agents.defaults` and of `agents.defaults.model`, and the
entire `agents.list` except for the patched fields of `main` agents
(missing container objects being created where absent). -/
theorem patch_config_frame (model_id : String) (cfg cfg' : List (String × Json))
    (hpatch : patch_config model_id cfg = some cfg') :
    (∀ k, k ≠ "agents" → jget cfg' k = jget cfg k) ∧
    (∀ k, k ≠ "defaults" → k ≠ "list" →
      getPath (.obj cfg') ["agents", k] = getPath (.obj cfg) ["agents", k]) ∧
    (∀ k, k ≠ "model" →
      getPath (.obj cfg') ["agents", "defaults", k] =
        getPath (.obj cfg) ["agents", "defaults", k]) ∧
    (∀ k, k ≠ "primary" →
      getPath (.obj cfg') ["agents", "defaults", "model", k] =
        getPath (.obj cfg) ["agents", "defaults", "model", k]) ∧
    (getPath (.obj cfg) ["agents", "list"] = none →
      getPath (.obj cfg') ["agents", "list"] = none) ∧
    (∀ xs, getPath (.obj cfg) ["agents", "list"] = some (.arr xs) →
      ∃ xs', getPath (.obj cfg') ["agents", "list"] = some (.arr xs') ∧
        List.Forall₂ agentFrame xs xs') := by
  obtain ⟨agents0, defaults0, model0, h0, h1, h2, hcase⟩ :=
    patch_config_cases model_id cfg cfg' hpatch
  have hag := asObj_jgetD_cases cfg "agents" agents0 h0
  have hdf := asObj_jgetD_cases agents0 "defaults" defaults0 h1
  have hmd := asObj_jgetD_cases defaults0 "model" model0 h2
  -- the value of `agents.list` in the patched agents object, and the
  -- per-key views of the patched containers
  have hGdef : ∀ A2, jget A2 "defaults" =
      some (.obj (jset defaults0 "model" (.obj (jset model0 "primary" (.str model_id))))) →
      ∀ k, k ≠ "model" →
      getPath (.obj (jset cfg "agents" (.obj A2))) ["agents", "defaults", k] =
        getPath (.obj cfg) ["agents", "defaults", k] := by
    intro A2 hA2 k hk
    rw [getPath_cons_some _ _ _ _ (jget_jset_same _ _ _),
      getPath_cons_some _ _ _ _ hA2, getPath_single,
      jget_jset_other _ _ _ _ hk]
    rcases hag with ⟨hnone, rfl⟩ | hsome
    · rw [getPath_cons_none _ _ _ hnone]
      rcases hdf with ⟨hdn, rfl⟩ | hds
      · rfl
      · exact absurd hds (by rw [jget_nil]; exact Option.noConfusion)
    · rw [getPath_cons_some _ _ _ _ hsome]
      rcases hdf with ⟨hdn, rfl⟩ | hds
      · rw [getPath_cons_none _ _ _ hdn, jget_nil]
      · rw [getPath_cons_some _ _ _ _ hds, getPath_single]
  have hGmod : ∀ A2, jget A2 "defaults" =
      some (.obj (jset defaults0 "model" (.obj (jset model0 "primary" (.str model_id))))) →
      ∀ k, k ≠ "primary" →
      getPath (.obj (jset cfg "agents" (.obj A2))) ["agents", "defaults", "model", k] =
        getPath (.obj cfg) ["agents", "defaults", "model", k] := by
    intro A2 hA2 k hk
    rw [getPath_cons_some _ _ _ _ (jget_jset_same _ _ _),
      getPath_cons_some _ _ _ _ hA2,
      getPath_cons_some _ _ _ _ (jget_jset_same _ _ _), getPath_single,
      jget_jset_other _ _ _ _ hk]
    rcases hag with ⟨hnone, rfl⟩ | hsome
    · rw [getPath_cons_none _ _ _ hnone]
      rcases hdf with ⟨hdn, rfl⟩ | hds
      · rcases hmd with ⟨hmn, rfl⟩ | hms
        · rfl
        · exact absurd hms (by rw [jget_nil]; exact Option.noConfusion)
      · exact absurd hds (by rw [jget_nil]; exact Option.noConfusion)
    · rw [getPath_cons_some _ _ _ _ hsome]
      rcases hdf with ⟨hdn, rfl⟩ | hds
      · rw [getPath_cons_none _ _ _ hdn]
        rcases hmd with ⟨hmn, rfl⟩ | hms
        · rw [jget_nil]
        · exact absurd hms (by rw [jget_nil]; exact Option.noConfusion)
      · rw [getPath_cons_some _ _ _ _ hds]
        rcases hmd with ⟨hmn, rfl⟩ | hms
        · rw [getPath_cons_none _ _ _ hmn, jget_nil]
        · rw [getPath_cons_some _ _ _ _ hms, getPath_single]
  have hGother : ∀ A2, (∀ k, k ≠ "defaults" → k ≠ "list" → jget A2 k = jget agents0 k) →
      ∀ k, k ≠ "defaults" → k ≠ "list" →
      getPath (.obj (jset cfg "agents" (.obj A2))) ["agents", k] =
        getPath (.obj cfg) ["agents", k] := by
    intro A2 hA2 k hk1 hk2
    rw [getPath_cons_some _ _ _ _ (jget_jset_same _ _ _), getPath_single, hA2 k hk1 hk2]
    rcases hag with ⟨hnone, rfl⟩ | hsome
    · rw [getPath_cons_none _ _ _ hnone, jget_nil]
    · rw [getPath_cons_some _ _ _ _ hsome, getPath_single]
  rcases hcase with ⟨hl, rfl⟩ | ⟨xs, xs', hl, hxs, rfl⟩
  · have hd1 : jget (patchCore model_id agents0 defaults0 model0) "defaults" =
        some (.obj (jset defaults0 "model"
          (.obj (jset model0 "primary" (.str model_id))))) := by
      rw [patchCore]
      exact jget_jset_same _ _ _
    have hglist : jget (patchCore model_id agents0 defaults0 model0) "list" = none := by
      rw [patchCore, jget_jset_other _ _ _ _ (by decide)]
      exact hl
    refine ⟨?_, ?_, hGdef _ hd1, hGmod _ hd1, ?_, ?_⟩
    · intro k hk
      rw [jget_jset_other _ _ _ _ hk]
    · exact hGother _ (by
        intro k hk1 hk2
        rw [patchCore, jget_jset_other _ _ _ _ hk1])
    · intro _
      rw [getPath_cons_some _ _ _ _ (jget_jset_same _ _ _),
        getPath_cons_none _ _ _ hglist]
    · intro xs hxs0
      exfalso
      rcases hag with ⟨hnone, rfl⟩ | hsome
      · rw [getPath_cons_none _ _ _ hnone] at hxs0
        exact Option.noConfusion hxs0
      · rw [getPath_cons_some _ _ _ _ hsome, getPath_single, hl] at hxs0
        exact Option.noConfusion hxs0
  · have hd2 : jget (jset (patchCore model_id agents0 defaults0 model0) "list"
        (.arr xs')) "defaults" =
        some (.obj (jset defaults0 "model"
          (.obj (jset model0 "primary" (.str model_id))))) := by
      rw [jget_jset_other _ _ _ _ (by decide), patchCore]
      exact jget_jset_same _ _ _
    have hagS : jget cfg "agents" = some (.obj agents0) := by
      rcases hag with ⟨hnone, rfl⟩ | hsome
      · rw [jget_nil] at hl
        exact Option.noConfusion hl
      · exact hsome
    refine ⟨?_, ?_, hGdef _ hd2, hGmod _ hd2, ?_, ?_⟩
    · intro k hk
      rw [jget_jset_other _ _ _ _ hk]
    · exact hGother _ (by
        intro k hk1 hk2
        rw [jget_jset_other _ _ _ _ hk2, patchCore, jget_jset_other _ _ _ _ hk1])
    · intro habs
      exfalso
      rw [getPath_cons_some _ _ _ _ hagS, getPath_single, hl] at habs
      exact Option.noConfusion habs
    · intro xs0 hxs0
      rw [getPath_cons_some _ _ _ _ hagS, getPath_single, hl] at hxs0
      cases hxs0
      refine ⟨xs', ?_, ?_⟩
      · rw [getPath_cons_some _ _ _ _ (jget_jset_same _ _ _),
          getPath_single, jget_jset_same]
      · exact (patchAgents_forall₂ model_id xs xs' hxs).imp
          (fun a a' hpa => patch_agent_frame model_id a a' hpa)

/-- Witness for C10: patching a document with an unrelated top-level
key and an unrelated `agents` key preserves them both. -/
theorem patch_config_frame_witness :
    (∀ k, k ≠ "agents" →
      jget [("agents", Json.obj [("extra", Json.num 7), ("defaults",
          Json.obj [("model", Json.obj [("primary", Json.str "m")])])]),
        ("other", Json.str "keep")] k =
      jget [("agents", Json.obj [("extra", Json.num 7)]), ("other", Json.str "keep")] k) ∧
    getPath (.obj [("agents", Json.obj [("extra", Json.num 7), ("defaults",
        Json.obj [("model", Json.obj [("primary", Json.str "m")])])]),
      ("other", Json.str "keep")]) ["agents", "extra"] =
      getPath (.obj [("agents", Json.obj [("extra", Json.num 7)]),
        ("other", Json.str "keep")]) ["agents", "extra"] := by
  have h := patch_config_frame "m"
    [("agents", Json.obj [("extra", Json.num 7)]), ("other", Json.str "keep")]
    [("agents", Json.obj [("extra", Json.num 7), ("defaults",
        Json.obj [("model", Json.obj [("primary", Json.str "m")])])]),
      ("other", Json.str "keep")] rfl
  exact ⟨h.1, h.2.1 "extra" (by decide) (by decide)⟩

/-- `restart_and_check` issues exactly one restart command, in every
run. -/
theorem racGo_restarts (model_id : String) (obs : List RacObs) (n : Nat) :
    (racGo model_id obs n).restarts = 1 := by
  induction obs generalizing n with
  | nil => rfl
  | cons o rest ih =>
    unfold racGo
    split
    · rfl
    · split
      · rfl
      · split
        · rfl
        · exact ih _

/-! ## C4: deadline exhaustion -/

/-- The poll loop on an all-quiet environment: every iteration runs to
the liveness check and continues. -/
theorem racGo_deadline (model_id : String) :
    ∀ (obs : List RacObs) (n : Nat),
      (∀ o ∈ obs, failPat (o.newText ++ "\n" ++ o.jctl) = false ∧
        containsSub (o.newText ++ "\n" ++ o.jctl).data
          ("agent model: " ++ model_id).data = false ∧
        o.status = "active") →
      racGo model_id obs n = ⟨false, deadlineReason model_id, n + obs.length, 1⟩ := by
  intro obs
  induction obs with
  | nil =>
    intro n _
    rfl
  | cons o rest ih =>
    intro n hq
    obtain ⟨h1, h2, h3⟩ := hq o (List.mem_cons_self o rest)
    unfold racGo
    rw [if_neg (by rw [h1]; exact Bool.false_ne_true),
      if_neg (by rw [h2]; exact Bool.false_ne_true),
      if_neg (by intro hne; exact hne h3),
      ih (n + 1) (fun o' ho' => hq o' (List.mem_cons_of_mem o ho'))]
    simp only [List.length_cons, RacResult.mk.injEq, true_and, and_true]
    omega

/-- C4 (amended): when neither the success marker nor an early failure
fires before the deadline, the outcome is failure with the fixed
"Gateway active but ... not seen within 25s." reason; the service's
status is queried exactly once per loop iteration and never again after
the deadline elapses — the active/inactive distinction is made only by
the in-loop checks, not by a final post-deadline status check. -/
theorem restart_and_check_deadline (model_id : String) (obs : List RacObs)
    (hquiet : ∀ o ∈ obs, failPat (o.newText ++ "\n" ++ o.jctl) = false ∧
      containsSub (o.newText ++ "\n" ++ o.jctl).data
        ("agent model: " ++ model_id).data = false ∧
      o.status = "active") :
    restart_and_check model_id obs =
      ⟨false, deadlineReason model_id, obs.length, 1⟩ := by
  unfold restart_and_check
  rw [racGo_deadline model_id obs 0 hquiet]
  simp

/-- Witness for the amended C4 with one quiet iteration. -/
theorem restart_and_check_deadline_witness :
    restart_and_check "m" [⟨"", "", "active"⟩] =
      ⟨false, deadlineReason "m", 1, 1⟩ :=
  restart_and_check_deadline "m" [⟨"", "", "active"⟩] (by decide)

/-- Counterexample to C4 as stated: a run whose single in-window
iteration is quiet and active, while the service is no longer active at
the moment the deadline elapses.  The code still reports the
active-phrased deadline reason and has issued exactly one status check
(the in-loop one) — no post-deadline status check exists to make the
claimed distinction. -/
theorem restart_and_check_no_final_check_cex :
    (restart_and_check "m" (obsWindow
        (fun i => if i = 0 then ⟨"", "", "active"⟩ else ⟨"", "", "inactive"⟩) 1)).reason =
      deadlineReason "m" ∧
    (restart_and_check "m" (obsWindow
        (fun i => if i = 0 then ⟨"", "", "active"⟩ else ⟨"", "", "inactive"⟩) 1)).statusChecks
      = 1 ∧
    ((fun i => if i = 0 then (⟨"", "", "active"⟩ : RacObs) else ⟨"", "", "inactive"⟩) 1).status
      ≠ "active" := by
  refine ⟨rfl, rfl, ?_⟩
  decide

/-- C1: a switch that reaches the restart step (validation passed, not
a dry run, the patch wrote the document) and whose health check fails
restores the document to the exact pre-switch backup content (so
`current_model` afterwards equals its pre-switch value), issues a
second restart, and exits with the rollback code 3 — two restarts in
total. -/
theorem cmd_model_set_rollback (raw mode : String) (reg : Registry) (ov : SDict)
    (cfg cfg1 : List (String × Json)) (obs : List RacObs)
    (resp : Option (List String)) (ts : String)
    (hval : (validate_model (normalize_model raw reg ov) reg ov mode resp).1 = true)
    (hpatch : patch_config (normalize_model raw reg ov) cfg = some cfg1)
    (hhc : (restart_and_check (normalize_model raw reg ov) obs).ok = false) :
    ∃ res, cmd_model_set raw false mode reg ov cfg obs resp ts = some res ∧
      res.exit = some 3 ∧ res.config = cfg ∧
      current_model res.config = current_model cfg ∧
      res.restarts = 2 ∧ res.backups = [(backupPath ts, cfg)] := by
  have hrr : (restart_and_check (normalize_model raw reg ov) obs).restarts = 1 :=
    racGo_restarts _ _ _
  unfold cmd_model_set
  simp only [hval, Bool.not_true, Bool.false_eq_true, if_false, Bool.false_eq_true,
    hpatch, hhc]
  exact ⟨_, rfl, rfl, rfl, rfl, by rw [hrr], rfl⟩

/-- Witness for C1: an empty environment (health check sees no
confirmation and times out) on a trivial document. -/
theorem cmd_model_set_rollback_witness :
    ∃ res, cmd_model_set "m" false "none" [] [] [] [] none "0" = some res ∧
      res.exit = some 3 ∧ res.config = [] ∧
      current_model res.config = current_model [] ∧
      res.restarts = 2 ∧ res.backups = [(backupPath "0", [])] :=
  cmd_model_set_rollback "m" "none" [] [] [] [("agents",
      Json.obj [("defaults", Json.obj [("model", Json.obj [("primary", Json.str "m")])])])]
    [] none "0" rfl rfl rfl

/-! ## C2: dry run stops after validation, with no mutation -/

/-- C2: with `--dry-run`, a switch whose validation passes reports the
resolved id and returns without backing up, patching or restarting
(document, backup artifacts and restart count untouched); when
validation fails it exits with code 2 before the dry-run branch,
likewise mutating nothing. -/
theorem cmd_model_set_dry_run (raw mode : String) (reg : Registry) (ov : SDict)
    (cfg : List (String × Json)) (obs : List RacObs) (resp : Option (List String))
    (ts : String) :
    ((validate_model (normalize_model raw reg ov) reg ov mode resp).1 = true →
      cmd_model_set raw true mode reg ov cfg obs resp ts =
        some ⟨none, cfg, [], 0,
          ["Resolved model: " ++ normalize_model raw reg ov,
           "✅ " ++ (validate_model (normalize_model raw reg ov) reg ov mode resp).2,
           "🔍 DRY RUN — would switch to: " ++ normalize_model raw reg ov]⟩) ∧
    ((validate_model (normalize_model raw reg ov) reg ov mode resp).1 = false →
      cmd_model_set raw true mode reg ov cfg obs resp ts =
        some ⟨some 2, cfg, [], 0,
          ["Resolved model: " ++ normalize_model raw reg ov,
           "❌ " ++ (validate_model (normalize_model raw reg ov) reg ov mode resp).2]⟩) := by
  constructor
  · intro hval
    unfold cmd_model_set
    simp only [hval, Bool.not_true, Bool.false_eq_true, if_false, if_true]
  · intro hval
    unfold cmd_model_set
    simp only [hval, Bool.not_false, if_true]

/-- Witness for C2, both branches: a passing dry run (mode `none`) and
a failing one (mode `local`, empty registry). -/
theorem cmd_model_set_dry_run_witness :
    cmd_model_set "m" true "none" [] [] [] [] none "0" =
      some ⟨none, [], [], 0,
        ["Resolved model: m", "✅ Validation skipped (mode=none).",
         "🔍 DRY RUN — would switch to: m"]⟩ ∧
    cmd_model_set "y" true "local" [] [] [] [] none "0" =
      some ⟨some 2, [], [], 0,
        ["Resolved model: y", "❌ Model not found in local registry: y"]⟩ :=
  ⟨(cmd_model_set_dry_run "m" "none" [] [] [] [] none "0").1 rfl,
   (cmd_model_set_dry_run "y" "local" [] [] [] [] none "0").2 rfl⟩

/-! ## C8: the authorization gate runs first and aborts with code 4 -/

/-- C8: for every guarded mutating subcommand, a missing (or empty,
hence falsy) `--user-id` and a supplied identity that is not a member
of `channels.discord.allowFrom` both abort with the same single exit
code 4 before the command body runs: the configuration document, the
registry, the backups and the restart count are all returned untouched.
Code 4 is distinct from the success (0), validation-failure (2) and
rollback (3) codes. -/
theorem main_dispatch_gated (c : Subcmd) (user_id : Option String) (mode : String)
    (ov : SDict) (w : World) (obs : List RacObs) (resp : Option (List String))
    (ts : String)
    (h : user_id = none ∨ user_id = some "" ∨
      (∃ u elems, user_id = some u ∧ u ≠ "" ∧ allowlist w.config = some elems ∧
        (elems.map pyStr).contains u = false)) :
    main_dispatch c user_id mode ov w obs resp ts = some (some 4, w) ∧
    ((4 : Nat) ≠ 0 ∧ (4 : Nat) ≠ 2 ∧ (4 : Nat) ≠ 3) := by
  refine ⟨?_, by decide, by decide, by decide⟩
  rcases h with h | h | ⟨u, elems, hu, hne, hal, hmem⟩
  · subst h
    rfl
  · subst h
    rfl
  · subst hu
    unfold main_dispatch require_allowlisted
    simp only [hne, if_neg hne, hal, hmem, Bool.false_eq_true, if_false]

/-- Witness for C8: a missing identity on `model export` aborts with
code 4 and an unchanged world. -/
theorem main_dispatch_gated_witness :
    main_dispatch Subcmd.mexport none "local" [] ⟨[], [], [], 0⟩ [] none "0" =
      some (some 4, ⟨[], [], [], 0⟩) ∧
    ((4 : Nat) ≠ 0 ∧ (4 : Nat) ≠ 2 ∧ (4 : Nat) ≠ 3) :=
  main_dispatch_gated Subcmd.mexport none "local" [] ⟨[], [], [], 0⟩ [] none "0"
    (Or.inl rfl)

end ModelSwitcher
